import Mathlib

/-!
Verification of `example/sftp_write_sliding.c`.

A shallow embedding of the non-blocking sliding-buffer SFTP upload sample of
libssh2 and of the control flow of its `main`, followed by theorems about the
upload loop (lines 245-276), the transfer summary and the shutdown sequence.

Modelling conventions
* the local file is a finite byte list with a read position (`FILE *local`);
* `char mem[1024 * 1000]` is a byte list whose length is `sizeof(mem)`; the
  definitions work for any buffer length and `sizeof_mem` records the real one;
* `libssh2_sftp_write` is an external collaborator: a deterministic state
  machine `Sink σ` that sees the offered bytes and answers with an `ssize_t`;
* loops that the source itself cannot bound (the retry on
  `LIBSSH2_ERROR_EAGAIN`) are driven by a fuel argument, `none` meaning that
  the fuel ran out;
* fields marked *ghost* do not exist in the C program; they record what an
  observer of the sink would see (the bytes accepted, the calls made).
-/

namespace SftpWriteSliding

/-- One `char` of the transfer buffer or of the local file. -/
abbrev Byte := UInt8

/-- Modelled from the spec: the would-block result `LIBSSH2_ERROR_EAGAIN` is declared
in `libssh2.h`, which is not part of the sources at hand; the spec describes it as a
result distinct from every accepted count and from every fatal error. libssh2
defines it as `-37`. -/
def LIBSSH2_ERROR_EAGAIN : Int := -37

/-- The value of `sizeof(mem)` for `char mem[1024 * 1000]` (line 93). -/
def sizeof_mem : Nat := 1024 * 1000

/-- The collaborator behind `libssh2_sftp_write(sftp_handle, mem, memuse)`: from
its own state and the `memuse` bytes offered it yields the `ssize_t` result and
its next state. -/
abbrev Sink (σ : Type) := σ → List Byte → Int × σ

/-- The variables of `main` the upload loop works on, and the ghost record of
what the sink has seen. -/
structure LoopState (σ : Type) where
  /-- contents of the file behind `local` -/
  file : List Byte
  /-- read position of `local` -/
  pos : Nat
  /-- the array `char mem[...]` -/
  mem : List Byte
  /-- the cursor `size_t memuse` -/
  memuse : Nat
  /-- the counter `libssh2_struct_stat_size total`. Modelled from the spec: the type is
  declared in `libssh2.h`, not in the sources at hand; the spec has the counter
  wide enough to avoid overflow for large files, and `total` never exceeds the
  length of the file, so it is a natural number without reduction -/
  total : Nat
  /-- state of the collaborator behind `sftp_handle` -/
  handle : σ
  /-- ghost: concatenation of the chunks the sink has accepted -/
  sent : List Byte
  /-- ghost: number of calls of `waitsocket` -/
  waits : Nat
  /-- ghost: every call of `libssh2_sftp_write`, as the bytes offered and the
  result returned -/
  writes : List (List Byte × Int)
deriving DecidableEq, Repr

/-- How the `do ... while` loop was left. -/
inductive Exit where
  /-- the `break` of line 254: nothing read and nothing buffered -/
  | eof
  /-- the `break` of line 265: `nwritten < 0` and not `LIBSSH2_ERROR_EAGAIN` -/
  | fatal (rc : Int)
  /-- the loop condition `nwritten > 0` failed: the sink accepted 0 bytes -/
  | stalled
  /-- the sink reported more bytes than offered: `memuse - (size_t)nwritten`
  wraps and `memmove` runs past `mem`, which C leaves undefined -/
  | undefined
deriving DecidableEq, Repr

/-- Result of one pass through the loop body. -/
inductive Step (σ : Type) where
  | next (st : LoopState σ)
  | done (e : Exit) (st : LoopState σ)
deriving DecidableEq, Repr

/-- State carried by a `Step`. -/
def Step.state {σ : Type} : Step σ → LoopState σ
  | .next st => st
  | .done _ st => st

/-- The bytes `fread(ptr, 1, nmemb, local)` delivers with the file at `pos`:
as many as asked for, or what is left of the file. -/
def fread (file : List Byte) (pos nmemb : Nat) : List Byte :=
  (file.drop pos).take nmemb

/-- Storing `data` into `mem` from offset `off` on (the effect of `fread` on
`&mem[memuse]`). -/
def store (mem : List Byte) (off : Nat) (data : List Byte) : List Byte :=
  mem.take off ++ data ++ mem.drop (off + data.length)

/-- Effect of `memmove(&mem[0], &mem[from], len)` on `mem` (line 269). -/
def memmove (mem : List Byte) (src len : Nat) : List Byte :=
  (mem.drop src).take len ++ mem.drop len

/-- The first `memuse` bytes of `mem`: what is buffered and not yet accepted. -/
def LoopState.pending {σ : Type} (st : LoopState σ) : List Byte :=
  st.mem.take st.memuse

/-- Lines 247-257 past the end-of-file test: the bytes read are stored at
`&mem[memuse]`, and `memuse` and `total` grow by `nread`. -/
def readStep {σ : Type} (st : LoopState σ) : LoopState σ :=
  let data := fread st.file st.pos (st.mem.length - st.memuse)
  let nread := data.length
  { st with
    pos := st.pos + nread
    mem := store st.mem st.memuse data
    memuse := st.memuse + nread
    total := st.total + nread }

/-- The call `waitsocket(sock, session)` of line 262. The function (lines 44-79)
waits in `select`, for at most 10 seconds, on the direction the session is blocked
in, and returns the result of `select`; the loop discards that result and no
variable of `main` is touched, so for the loop a call is one more wait. -/
def waitsocket {σ : Type} (st : LoopState σ) : LoopState σ :=
  { st with waits := st.waits + 1 }

/-- Lines 260-263: `libssh2_sftp_write` is called again with the same `mem` and
`memuse` for as long as it answers `LIBSSH2_ERROR_EAGAIN`, with one
`waitsocket` in between. Returns `nwritten` and the state. -/
def writeLoop {σ : Type} (sink : Sink σ) : Nat → LoopState σ → Option (Int × LoopState σ)
  | 0, _ => none
  | fuel + 1, st =>
    let r := sink st.handle st.pending
    let st1 := { st with handle := r.2, writes := st.writes ++ [(st.pending, r.1)] }
    if r.1 = LIBSSH2_ERROR_EAGAIN then
      writeLoop sink fuel (waitsocket st1)
    else
      some (r.1, st1)

/-- Lines 264-276, after the write returned `nwritten`. -/
def afterWrite {σ : Type} (nwritten : Int) (st : LoopState σ) : Step σ :=
  if nwritten < 0 then
    .done (.fatal nwritten) st
  else if st.memuse < nwritten.toNat then
    .done .undefined st
  else
    let acc := { st with sent := st.sent ++ st.pending.take nwritten.toNat }
    let st1 :=
      if st.memuse - nwritten.toNat ≠ 0 then
        { acc with
          mem := memmove st.mem nwritten.toNat (st.memuse - nwritten.toNat)
          memuse := st.memuse - nwritten.toNat }
      else
        { acc with memuse := 0 }
    if nwritten > 0 then .next st1 else .done .stalled st1

/-- One pass through the body of the `do ... while` loop (lines 246-276). `nread`
is a `size_t`, so `nread <= 0` holds for 0 only: with nothing buffered the pass
takes the `break` of line 254, otherwise it goes on with `nread = 0`. -/
def iteration {σ : Type} (sink : Sink σ) (fuel : Nat) (st : LoopState σ) : Option (Step σ) :=
  let nread := (fread st.file st.pos (st.mem.length - st.memuse)).length
  if nread ≤ 0 ∧ ¬ st.memuse > 0 then
    some (.done .eof st)
  else
    match writeLoop sink fuel (readStep st) with
    | none => none
    | some (nwritten, st1) => some (afterWrite nwritten st1)

/-- The `do ... while(nwritten > 0)` loop of lines 246-276. -/
def uploadLoop {σ : Type} (sink : Sink σ) : Nat → LoopState σ → Option (Exit × LoopState σ)
  | 0, _ => none
  | fuel + 1, st =>
    match iteration sink fuel st with
    | none => none
    | some (.done e st1) => some (e, st1)
    | some (.next st1) => uploadLoop sink fuel st1

/-- The state at line 245: `memuse = 0`, `total = 0` (line 98), the file at its
start, `mem` with whatever the stack holds. -/
def initState {σ : Type} (file mem : List Byte) (handle : σ) : LoopState σ :=
  { file := file, pos := 0, mem := mem, memuse := 0, total := 0, handle := handle,
    sent := [], waits := 0, writes := [] }

/-! ### Mock sinks -/

/-- A sink that accepts exactly `n` bytes on every call. -/
def sinkChunk (n : Nat) : Sink Unit := fun _ _ => ((n : Int), ())

/-- A sink that answers would-block to its first `N` calls (its state counts the
calls) and accepts the whole offered buffer afterwards. -/
def sinkBlockThenAll (N : Nat) : Sink Nat := fun calls buf =>
  (if calls < N then LIBSSH2_ERROR_EAGAIN else (buf.length : Int), calls + 1)

/-- A sink that plays a fixed script of results and fails with `-1` once the
script is used up. -/
def sinkScript : Sink (List Int) := fun script _ =>
  match script with
  | [] => (-1, [])
  | rc :: rest => (rc, rest)

/-- The state at the head of the loop once `k` passes have gone through
without leaving it; `none` when the loop was left (or the fuel ran out) earlier. -/
def loopHead {σ : Type} (sink : Sink σ) (fuel : Nat) : Nat → LoopState σ → Option (LoopState σ)
  | 0, st => some st
  | k + 1, st =>
    match iteration sink fuel st with
    | some (.next st1) => loopHead sink fuel k st1
    | _ => none

/-- The sink's state after `k` calls that all offered `buf`. -/
def retryHandle {σ : Type} (sink : Sink σ) (buf : List Byte) : Nat → σ → σ
  | 0, s => s
  | k + 1, s => retryHandle sink buf k (sink s buf).2

/-- Sink contract: a result never exceeds the number of bytes offered (so an
accepted count `n` has `0 ≤ n ≤ used`; negative results are errors). -/
def SinkBounded {σ : Type} (sink : Sink σ) : Prop :=
  ∀ s buf, (sink s buf).1 ≤ (buf.length : Int)

/-- The sink answers would-block only finitely many times in a row: whatever
its state and the buffer offered, some retry gets another answer. -/
def SinkAnswers {σ : Type} (sink : Sink σ) : Prop :=
  ∀ s buf, ∃ k, (sink (retryHandle sink buf k s) buf).1 ≠ LIBSSH2_ERROR_EAGAIN

/-- Bytes not yet accepted by the sink: what is left in the file plus what is
buffered. -/
def LoopState.outstanding {σ : Type} (st : LoopState σ) : Nat :=
  (st.file.length - st.pos) + st.memuse

/-- The relation between the program variables and the ghost record that holds
at the head of the loop and at its exit. -/
structure Inv {σ : Type} (st : LoopState σ) : Prop where
  memuse_le : st.memuse ≤ st.mem.length
  pos_le : st.pos ≤ st.file.length
  total_eq : st.total = st.pos
  data_eq : st.sent ++ st.pending = st.file.take st.pos

/-! ### The program around the loop -/

/-- What `main` acquires and has to give back. -/
inductive Resource where
  /-- the file `local`, from `fopen` (line 136), given back by `fclose` (line 288) -/
  | localFile
  /-- the socket `sock`, from `socket` (line 146), given back by `shutdown` and
  `LIBSSH2_SOCKET_CLOSE` (lines 297-298) -/
  | socket
  /-- the SSH `session`, from `libssh2_session_init` (line 161), given back by
  `libssh2_session_disconnect` and `libssh2_session_free` (lines 291-293) -/
  | session
  /-- the SFTP session `sftp_session`, from `libssh2_sftp_init` (line 215), given back by
  `libssh2_sftp_shutdown` (line 284) -/
  | sftpSession
  /-- the SFTP file handle `sftp_handle`, from `libssh2_sftp_open` (line 227), given back by
  `libssh2_sftp_close` (line 283) -/
  | sftpHandle
deriving DecidableEq, Repr

/-- A successful acquisition or a release, in program order. -/
inductive Call where
  | acquire (r : Resource)
  | release (r : Resource)
deriving DecidableEq, Repr

/-- The lines `main` writes to `stderr`, one constructor for each `fprintf`. -/
inductive Diag where
  /-- the line "libssh2 initialization failed (%d)" -/
  | initFailed (rc : Int)
  /-- the line "Cannot open local file %s" -/
  | cannotOpenLocal
  /-- the line "failed to create socket." -/
  | socketFailed
  /-- the line "failed to connect." -/
  | connectFailed
  /-- the line "Could not initialize SSH session." -/
  | sessionInitFailed
  /-- the line "Failure establishing SSH session: %d" -/
  | handshakeFailed (rc : Int)
  /-- the line "Fingerprint: " followed by the 20 bytes of the host key hash -/
  | fingerprint (hash : List Byte)
  /-- the line "Authentication by password failed." -/
  | authPasswordFailed
  /-- the line "Authentication by public key failed." -/
  | authPublickeyFailed
  /-- the line "libssh2_sftp_init()." -/
  | sftpInit
  /-- the line "Unable to init SFTP session" -/
  | sftpInitFailed
  /-- the line "libssh2_sftp_open()." -/
  | sftpOpen
  /-- the line "Unable to open file with SFTP: %ld" -/
  | sftpOpenFailed (err : Int)
  /-- the line "libssh2_sftp_open() is done, now send data." -/
  | sendData
  /-- the line "%ld bytes in %d seconds makes %.1f bytes/sec": `total`, `duration`, and
  their quotient, which the two determine -/
  | summary (total : Nat) (duration : Int)
  /-- the line "all done" -/
  | allDone
deriving DecidableEq, Repr

/-- The answers of everything `main` calls. A retry loop on
`LIBSSH2_ERROR_EAGAIN` of the set-up phase is represented by the answer that
ends it. -/
structure World (σ : Type) where
  /-- result of `libssh2_init(0)` -/
  init_rc : Int
  /-- contents of the local file if `fopen` succeeds, `none` if it returns `NULL` -/
  local_file : Option (List Byte)
  /-- whether `socket` returns a valid socket -/
  socket_ok : Bool
  /-- result of `connect` -/
  connect_rc : Int
  /-- whether `libssh2_session_init` returns a session -/
  session_ok : Bool
  /-- the result of `libssh2_session_handshake` that ends the loop of line 173 -/
  handshake_rc : Int
  /-- result of `libssh2_hostkey_hash` -/
  hostkey_hash : List Byte
  /-- the result of `libssh2_userauth_password` that ends the loop of line 194 -/
  auth_password_rc : Int
  /-- the result of `libssh2_userauth_publickey_fromfile` that ends the loop of line 203 -/
  auth_publickey_rc : Int
  /-- whether the loop of line 214 ends with an SFTP session -/
  sftp_init_ok : Bool
  /-- whether the loop of line 226 ends with a file handle -/
  sftp_open_ok : Bool
  /-- result of `libssh2_sftp_last_error` -/
  sftp_last_error : Int
  /-- what the stack holds where `mem` is placed -/
  mem : List Byte
  /-- behaviour of `libssh2_sftp_write` on the opened handle -/
  sink : Sink σ
  /-- state of the opened handle -/
  handle : σ
  /-- the value of `time(NULL) - start` at line 278 -/
  duration : Int

/-- What an observer of the process sees. -/
structure Outcome where
  /-- value returned by `main` -/
  status : Int
  /-- lines written to `stderr` -/
  stderr : List Diag
  /-- ghost: acquisitions and releases, in order -/
  calls : List Call
deriving DecidableEq, Repr

/-- The local `int auth_pw = 1` (line 85). -/
def auth_pw : Int := 1

/-- The code from the label `shutdown:` to `return 0` (lines 286-309);
`session_set` is `session != NULL`, `sock_valid` is
`sock != LIBSSH2_INVALID_SOCKET`. -/
def shutdown_label (session_set sock_valid : Bool) (stderr : List Diag)
    (calls : List Call) : Outcome :=
  let calls := calls ++ [.release .localFile]
  let calls := if session_set then calls ++ [.release .session] else calls
  let calls := if sock_valid then calls ++ [.release .socket] else calls
  { status := 0, stderr := stderr ++ [.allDone], calls := calls }

/-- The function `main` (lines 81-310, without the `_WIN32` parts). `none`
stands for a run without a defined outcome: the fuel of the upload loop ran
out, or the loop ran into undefined behaviour. -/
def main {σ : Type} (w : World σ) (fuel : Nat) : Option Outcome :=
  if w.init_rc ≠ 0 then
    some { status := 1, stderr := [.initFailed w.init_rc], calls := [] }
  else
  match w.local_file with
  | none => some { status := 1, stderr := [.cannotOpenLocal], calls := [] }
  | some file =>
  let calls := [Call.acquire .localFile]
  if ¬ w.socket_ok then
    some (shutdown_label false false [.socketFailed] calls)
  else
  let calls := calls ++ [.acquire .socket]
  if w.connect_rc ≠ 0 then
    some (shutdown_label false true [.connectFailed] calls)
  else
  if ¬ w.session_ok then
    some (shutdown_label false true [.sessionInitFailed] calls)
  else
  let calls := calls ++ [.acquire .session]
  if w.handshake_rc ≠ 0 then
    some (shutdown_label true true [.handshakeFailed w.handshake_rc] calls)
  else
  let stderr := [Diag.fingerprint (w.hostkey_hash.take 20)]
  let auth_failed : Option Diag :=
    if auth_pw ≠ 0 then
      (if w.auth_password_rc ≠ 0 then some .authPasswordFailed else none)
    else
      (if w.auth_publickey_rc ≠ 0 then some .authPublickeyFailed else none)
  match auth_failed with
  | some d => some (shutdown_label true true (stderr ++ [d]) calls)
  | none =>
  let stderr := stderr ++ [.sftpInit]
  if ¬ w.sftp_init_ok then
    some (shutdown_label true true (stderr ++ [.sftpInitFailed]) calls)
  else
  let calls := calls ++ [.acquire .sftpSession]
  let stderr := stderr ++ [.sftpOpen]
  if ¬ w.sftp_open_ok then
    some (shutdown_label true true (stderr ++ [.sftpOpenFailed w.sftp_last_error]) calls)
  else
  let calls := calls ++ [.acquire .sftpHandle]
  let stderr := stderr ++ [.sendData]
  match uploadLoop w.sink fuel (initState file w.mem w.handle) with
  | none => none
  | some (.undefined, _) => none
  | some (_, st) =>
    let stderr := stderr ++ [.summary st.total w.duration]
    let calls := calls ++ [.release .sftpHandle, .release .sftpSession]
    some (shutdown_label true true stderr calls)

/-- Every acquisition of `r` in the list of calls is followed, later in the list,
by its release. -/
def ReleasedAfter (r : Resource) : List Call → Prop
  | [] => True
  | c :: rest => (c = Call.acquire r → Call.release r ∈ rest) ∧ ReleasedAfter r rest

/-- A world in which everything before the upload loop succeeds; the file, the
sink script and the elapsed time are left open. -/
def scriptedWorld (file : List Byte) (script : List Int) (duration : Int) :
    World (List Int) :=
  { init_rc := 0, local_file := some file, socket_ok := true, connect_rc := 0,
    session_ok := true, handshake_rc := 0, hostkey_hash := List.replicate 20 0,
    auth_password_rc := 0, auth_publickey_rc := 0, sftp_init_ok := true,
    sftp_open_ok := true, sftp_last_error := 0, mem := [0, 0, 0, 0],
    sink := sinkScript, handle := script, duration := duration }

/-- What a run of `scriptedWorld` shows once the upload loop has been left with
`total` bytes counted after `duration` seconds. -/
def scriptedOutcome (total : Nat) (duration : Int) : Outcome :=
  { status := 0,
    stderr := [.fingerprint (List.replicate 20 0), .sftpInit, .sftpOpen, .sendData,
      .summary total duration, .allDone],
    calls := [.acquire .localFile, .acquire .socket, .acquire .session,
      .acquire .sftpSession, .acquire .sftpHandle, .release .sftpHandle,
      .release .sftpSession, .release .localFile, .release .session, .release .socket] }

/-! ### A concrete run -/

/-- The head of the second pass over the source `1 .. 6` with a four-byte buffer,
the sink having taken 3 bytes in the first pass. -/
def demoHead : LoopState (List Int) :=
  { file := [1, 2, 3, 4, 5, 6], pos := 4, mem := [4, 2, 3, 4], memuse := 1,
    total := 4, handle := [2, 1], sent := [1, 2, 3], waits := 0,
    writes := [([1, 2, 3, 4], 3)] }

/-- The end of that second pass, in which the sink takes 2 of the 3 bytes offered. -/
def demoNext : LoopState (List Int) :=
  { file := [1, 2, 3, 4, 5, 6], pos := 6, mem := [6, 5, 6, 4], memuse := 1,
    total := 6, handle := [1], sent := [1, 2, 3, 4, 5], waits := 0,
    writes := [([1, 2, 3, 4], 3), ([4, 5, 6], 2)] }

/-- The head of the second pass over the source `1 .. 6` with a four-byte buffer
and the sink that blocks once: the first chunk went through after one wait. -/
def demoDrained : LoopState Nat :=
  { file := [1, 2, 3, 4, 5, 6], pos := 4, mem := [1, 2, 3, 4], memuse := 0,
    total := 4, handle := 2, sent := [1, 2, 3, 4], waits := 1,
    writes := [([1, 2, 3, 4], -37), ([1, 2, 3, 4], 4)] }

/-! ### Buffer primitives -/

theorem store_length (mem : List Byte) (off : Nat) (data : List Byte)
    (h : off + data.length ≤ mem.length) : (store mem off data).length = mem.length := by
  simp [store]; omega

theorem store_take (mem : List Byte) (off : Nat) (data : List Byte)
    (h : off ≤ mem.length) :
    (store mem off data).take (off + data.length) = mem.take off ++ data := by
  unfold store
  have h1 : (mem.take off ++ data).length = off + data.length := by simp; omega
  rw [← h1, List.take_left']
  rfl

theorem memmove_length (mem : List Byte) (s len : Nat)
    (h : s + len ≤ mem.length) : (memmove mem s len).length = mem.length := by
  simp [memmove]; omega

theorem memmove_take (mem : List Byte) (s len : Nat)
    (h : s + len ≤ mem.length) :
    (memmove mem s len).take len = (mem.drop s).take len := by
  unfold memmove
  have h1 : ((mem.drop s).take len).length = len := by simp; omega
  rw [List.take_append_of_le_length (by omega)]
  simp

theorem fread_length (file : List Byte) (pos nmemb : Nat) :
    (fread file pos nmemb).length = min nmemb (file.length - pos) := by
  simp [fread]

theorem take_fread (file : List Byte) (pos nmemb : Nat) :
    file.take pos ++ fread file pos nmemb = file.take (pos + (fread file pos nmemb).length) := by
  rw [List.take_add]
  congr 1
  simp only [fread, List.length_take, List.length_drop]
  rw [List.take_eq_take]
  simp

/-! ### The retry loop -/

theorem writeLoop_spec {σ : Type} (sink : Sink σ) :
    ∀ (fuel : Nat) (st : LoopState σ) (n : Int) (st1 : LoopState σ),
      writeLoop sink fuel st = some (n, st1) →
      n ≠ LIBSSH2_ERROR_EAGAIN ∧
      st1.file = st.file ∧ st1.pos = st.pos ∧ st1.mem = st.mem ∧
      st1.memuse = st.memuse ∧ st1.total = st.total ∧ st1.sent = st.sent ∧
      ∃ k, k < fuel ∧
        st1.waits = st.waits + k ∧
        st1.writes = st.writes ++ List.replicate k (st.pending, LIBSSH2_ERROR_EAGAIN)
          ++ [(st.pending, n)] ∧
        n = (sink (retryHandle sink st.pending k st.handle) st.pending).1 ∧
        st1.handle = (sink (retryHandle sink st.pending k st.handle) st.pending).2 ∧
        ∀ j, j < k →
          (sink (retryHandle sink st.pending j st.handle) st.pending).1 = LIBSSH2_ERROR_EAGAIN := by
  intro fuel
  induction fuel with
  | zero => intro st n st1 h; simp [writeLoop] at h
  | succ fuel ih =>
    intro st n st1 h
    rw [writeLoop] at h
    by_cases hc : (sink st.handle st.pending).1 = LIBSSH2_ERROR_EAGAIN
    · simp only [hc, if_true] at h
      obtain ⟨h1, h2, h3, h4, h5, h6, h7, k, hk, hw, hl, hn, hh, hj⟩ := ih _ _ _ h
      simp only [LoopState.pending, waitsocket] at *
      refine ⟨h1, h2, h3, h4, h5, h6, h7, k + 1, by omega, ?_, ?_, ?_, ?_, ?_⟩
      · simp only [hw]; omega
      · simp only [hl, h4, h5, hc, List.replicate_succ, List.append_assoc, List.singleton_append,
          List.cons_append, List.nil_append]
      · simpa [retryHandle] using hn
      · simpa [retryHandle] using hh
      · intro j hj1
        cases j with
        | zero => simpa [retryHandle] using hc
        | succ j => simpa [retryHandle] using hj j (by omega)
    · simp only [hc, if_false, Option.some.injEq, Prod.mk.injEq] at h
      obtain ⟨rfl, rfl⟩ := h
      refine ⟨hc, rfl, rfl, rfl, rfl, rfl, rfl, 0, by omega, rfl, by simp, rfl, rfl, ?_⟩
      intro j hj; omega

theorem writeLoop_mono {σ : Type} (sink : Sink σ) :
    ∀ (fuel fuel1 : Nat) (st : LoopState σ) (r : Int × LoopState σ),
      writeLoop sink fuel st = some r → fuel ≤ fuel1 → writeLoop sink fuel1 st = some r := by
  intro fuel
  induction fuel with
  | zero => intro fuel1 st r h; simp [writeLoop] at h
  | succ fuel ih =>
    intro fuel1 st r h hle
    obtain ⟨f, rfl⟩ : ∃ f, fuel1 = f + 1 := ⟨fuel1 - 1, by omega⟩
    rw [writeLoop] at h ⊢
    by_cases hc : (sink st.handle st.pending).1 = LIBSSH2_ERROR_EAGAIN
    · simp only [hc, if_true] at h ⊢
      exact ih _ _ _ h (by omega)
    · simp only [hc, if_false] at h ⊢
      exact h

/-- A sink that stops answering would-block lets the retry loop return. -/
theorem writeLoop_terminates {σ : Type} (sink : Sink σ) :
    ∀ (k : Nat) (st : LoopState σ),
      (sink (retryHandle sink st.pending k st.handle) st.pending).1 ≠ LIBSSH2_ERROR_EAGAIN →
      ∃ r, writeLoop sink (k + 1) st = some r := by
  intro k
  induction k with
  | zero =>
    intro st h
    simp only [retryHandle] at h
    rw [writeLoop]
    simp [h]
  | succ k ih =>
    intro st h
    rw [writeLoop]
    by_cases hc : (sink st.handle st.pending).1 = LIBSSH2_ERROR_EAGAIN
    · simp only [hc, if_true]
      apply ih
      simpa [retryHandle, LoopState.pending, waitsocket] using h
    · simp [hc]

/-! ### The invariant -/

theorem inv_initState {σ : Type} (file mem : List Byte) (handle : σ) :
    Inv (initState file mem handle) := by
  constructor <;> simp [initState, LoopState.pending]

theorem inv_readStep {σ : Type} (st : LoopState σ) (h : Inv st) : Inv (readStep st) := by
  obtain ⟨h1, h2, h3, h4⟩ := h
  have hlen := fread_length st.file st.pos (st.mem.length - st.memuse)
  constructor
  · simp only [readStep]
    rw [store_length _ _ _ (by omega)]
    omega
  · simp only [readStep]; omega
  · simp only [readStep]; omega
  · simp only [readStep, LoopState.pending] at h4 ⊢
    rw [store_take _ _ _ h1, ← List.append_assoc, h4, take_fread]

theorem readStep_mem_length {σ : Type} (st : LoopState σ) (h : st.memuse ≤ st.mem.length) :
    (readStep st).mem.length = st.mem.length := by
  have hlen := fread_length st.file st.pos (st.mem.length - st.memuse)
  simp only [readStep]
  rw [store_length _ _ _ (by omega)]

theorem inv_of_frame {σ : Type} (st st1 : LoopState σ) (h : Inv st)
    (hf : st1.file = st.file) (hp : st1.pos = st.pos) (hm : st1.mem = st.mem)
    (hu : st1.memuse = st.memuse) (ht : st1.total = st.total) (hs : st1.sent = st.sent) :
    Inv st1 := by
  obtain ⟨h1, h2, h3, h4⟩ := h
  constructor
  · rw [hm, hu]; exact h1
  · rw [hf, hp]; exact h2
  · rw [ht, hp]; exact h3
  · simp only [LoopState.pending] at h4 ⊢
    rw [hs, hm, hu, hf, hp]; exact h4

theorem afterWrite_fields {σ : Type} (n : Int) (st : LoopState σ) :
    (afterWrite n st).state.file = st.file ∧ (afterWrite n st).state.pos = st.pos ∧
    (afterWrite n st).state.total = st.total ∧ (afterWrite n st).state.handle = st.handle ∧
    (afterWrite n st).state.waits = st.waits ∧ (afterWrite n st).state.writes = st.writes := by
  unfold afterWrite
  split
  · simp [Step.state]
  · split
    · simp [Step.state]
    · split <;> split <;> simp [Step.state]

theorem afterWrite_memuse {σ : Type} (n : Int) (st : LoopState σ) (h : n.toNat ≤ st.memuse) :
    (afterWrite n st).state.memuse = st.memuse - n.toNat := by
  unfold afterWrite
  split
  · rename_i hneg
    have : n.toNat = 0 := by omega
    simp [Step.state, this]
  · split
    · omega
    · split <;> split <;> simp [Step.state] <;> omega

theorem afterWrite_mem_length {σ : Type} (n : Int) (st : LoopState σ)
    (h : st.memuse ≤ st.mem.length) :
    (afterWrite n st).state.mem.length = st.mem.length := by
  unfold afterWrite
  split
  · simp [Step.state]
  · split
    · simp [Step.state]
    · split <;> split <;> simp [Step.state] <;> (rw [memmove_length _ _ _ (by omega)])

theorem inv_afterWrite {σ : Type} (n : Int) (st : LoopState σ) (h : Inv st) :
    Inv (afterWrite n st).state := by
  obtain ⟨h1, h2, h3, h4⟩ := h
  obtain ⟨f1, f2, f3, -, -, -⟩ := afterWrite_fields n st
  by_cases hneg : n < 0
  · simp only [afterWrite, hneg, if_true, Step.state]; exact ⟨h1, h2, h3, h4⟩
  by_cases hub : st.memuse < n.toNat
  · simp only [afterWrite, hneg, hub, if_true, if_false, Step.state]; exact ⟨h1, h2, h3, h4⟩
  have hle : n.toNat ≤ st.memuse := by omega
  constructor
  · rw [afterWrite_memuse n st hle, afterWrite_mem_length n st h1]; omega
  · rw [f1, f2]; exact h2
  · rw [f3, f2]; exact h3
  · rw [f1, f2, ← h4]
    simp only [LoopState.pending]
    by_cases hz : st.memuse - n.toNat ≠ 0
    · have hs : (afterWrite n st).state.sent = st.sent ++ (st.mem.take st.memuse).take n.toNat := by
        simp only [afterWrite, hneg, hub, hz, if_true, if_false, LoopState.pending]
        split <;> simp [Step.state]
      have hm : (afterWrite n st).state.mem = memmove st.mem n.toNat (st.memuse - n.toNat) := by
        simp only [afterWrite, hneg, hub, hz, if_true, if_false, LoopState.pending]
        split <;> simp [Step.state]
      rw [hs, hm, afterWrite_memuse n st hle, memmove_take _ _ _ (by omega), List.take_take,
        Nat.min_eq_left hle, List.append_assoc]
      congr 1
      have : st.memuse = n.toNat + (st.memuse - n.toNat) := by omega
      conv_rhs => rw [this, List.take_add]
    · have hz1 : st.memuse - n.toNat = 0 := by omega
      have hs : (afterWrite n st).state.sent = st.sent ++ (st.mem.take st.memuse).take n.toNat := by
        simp only [afterWrite, hneg, hub, hz, if_true, if_false, LoopState.pending]
        split <;> simp [Step.state]
      have hm : (afterWrite n st).state.mem = st.mem := by
        simp only [afterWrite, hneg, hub, hz, if_true, if_false, LoopState.pending]
        split <;> simp [Step.state]
      have he : n.toNat = st.memuse := by omega
      rw [hs, hm, afterWrite_memuse n st hle, hz1, he]
      simp

/-- What one pass of the loop body amounts to when it calls the sink. -/
theorem iteration_eq {σ : Type} (sink : Sink σ) (fuel : Nat) (st : LoopState σ) (r : Step σ)
    (h : iteration sink fuel st = some r) :
    (r = .done .eof st ∧ (fread st.file st.pos (st.mem.length - st.memuse)).length = 0 ∧
      st.memuse = 0) ∨
    (¬ ((fread st.file st.pos (st.mem.length - st.memuse)).length = 0 ∧ st.memuse = 0) ∧
      ∃ n st1, writeLoop sink fuel (readStep st) = some (n, st1) ∧ r = afterWrite n st1) := by
  unfold iteration at h
  simp only at h
  split at h
  · rename_i hc
    left
    refine ⟨by simpa using h.symm, by omega, by omega⟩
  · rename_i hc
    right
    refine ⟨by omega, ?_⟩
    split at h
    · simp at h
    · rename_i n st1 hw
      exact ⟨n, st1, hw, by simpa using h.symm⟩

theorem inv_iteration {σ : Type} (sink : Sink σ) (fuel : Nat) (st : LoopState σ) (r : Step σ)
    (hinv : Inv st) (h : iteration sink fuel st = some r) : Inv r.state := by
  rcases iteration_eq sink fuel st r h with ⟨rfl, -, -⟩ | ⟨-, n, st1, hw, rfl⟩
  · exact hinv
  · obtain ⟨-, h2, h3, h4, h5, h6, h7, -⟩ := writeLoop_spec sink fuel _ n st1 hw
    exact inv_afterWrite n st1 (inv_of_frame _ _ (inv_readStep st hinv) h2 h3 h4 h5 h6 h7)

theorem inv_loopHead {σ : Type} (sink : Sink σ) (fuel : Nat) :
    ∀ (k : Nat) (st st1 : LoopState σ), Inv st → loopHead sink fuel k st = some st1 → Inv st1 := by
  intro k
  induction k with
  | zero => intro st st1 hinv h; simp only [loopHead, Option.some.injEq] at h; exact h ▸ hinv
  | succ k ih =>
    intro st st1 hinv h
    rw [loopHead] at h
    split at h
    · rename_i st2 hit
      exact ih _ _ (inv_iteration sink fuel st _ hinv hit) h
    · simp at h

theorem inv_uploadLoop {σ : Type} (sink : Sink σ) :
    ∀ (fuel : Nat) (st : LoopState σ) (e : Exit) (st1 : LoopState σ),
      Inv st → uploadLoop sink fuel st = some (e, st1) → Inv st1 := by
  intro fuel
  induction fuel with
  | zero => intro st e st1 _ h; simp [uploadLoop] at h
  | succ fuel ih =>
    intro st e st1 hinv h
    rw [uploadLoop] at h
    split at h
    · simp at h
    · rename_i e1 st2 hit
      simp only [Option.some.injEq, Prod.mk.injEq] at h
      have := inv_iteration sink fuel st _ hinv hit
      rw [← h.2]; exact this
    · rename_i st2 hit
      exact ih _ _ _ (inv_iteration sink fuel st _ hinv hit) h

/-! ### Fuel -/

theorem iteration_mono {σ : Type} (sink : Sink σ) (fuel fuel1 : Nat) (st : LoopState σ)
    (r : Step σ) (h : iteration sink fuel st = some r) (hle : fuel ≤ fuel1) :
    iteration sink fuel1 st = some r := by
  rcases iteration_eq sink fuel st r h with ⟨rfl, h1, h2⟩ | ⟨hc, n, st1, hw, rfl⟩
  · unfold iteration
    simp only
    rw [if_pos]
    exact ⟨by omega, by omega⟩
  · have hw1 := writeLoop_mono sink fuel fuel1 _ _ hw hle
    unfold iteration
    simp only [hw1]
    rw [if_neg]
    omega

theorem loopHead_mono {σ : Type} (sink : Sink σ) (fuel fuel1 : Nat) (hle : fuel ≤ fuel1) :
    ∀ (k : Nat) (st st1 : LoopState σ),
      loopHead sink fuel k st = some st1 → loopHead sink fuel1 k st = some st1 := by
  intro k
  induction k with
  | zero => intro st st1 h; simpa [loopHead] using h
  | succ k ih =>
    intro st st1 h
    rw [loopHead] at h ⊢
    split at h
    · rename_i st2 hit
      rw [iteration_mono sink fuel fuel1 st _ hit hle]
      exact ih _ _ h
    · simp at h

theorem uploadLoop_mono {σ : Type} (sink : Sink σ) :
    ∀ (fuel fuel1 : Nat) (st : LoopState σ) (r : Exit × LoopState σ),
      uploadLoop sink fuel st = some r → fuel ≤ fuel1 → uploadLoop sink fuel1 st = some r := by
  intro fuel
  induction fuel with
  | zero => intro fuel1 st r h; simp [uploadLoop] at h
  | succ fuel ih =>
    intro fuel1 st r h hle
    obtain ⟨f, rfl⟩ : ∃ f, fuel1 = f + 1 := ⟨fuel1 - 1, by omega⟩
    rw [uploadLoop] at h ⊢
    split at h
    · simp at h
    · rename_i e st2 hit
      rw [iteration_mono sink fuel f st _ hit (by omega)]
      exact h
    · rename_i st2 hit
      rw [iteration_mono sink fuel f st _ hit (by omega)]
      exact ih _ _ _ h (by omega)

/-- A run of the loop is a number of passes that stay in the loop and one pass
that leaves it. -/
theorem uploadLoop_last {σ : Type} (sink : Sink σ) :
    ∀ (fuel : Nat) (st : LoopState σ) (e : Exit) (st1 : LoopState σ),
      uploadLoop sink fuel st = some (e, st1) →
      ∃ k stk, loopHead sink fuel k st = some stk ∧
        iteration sink fuel stk = some (.done e st1) := by
  intro fuel
  induction fuel with
  | zero => intro st e st1 h; simp [uploadLoop] at h
  | succ fuel ih =>
    intro st e st1 h
    rw [uploadLoop] at h
    split at h
    · simp at h
    · rename_i e1 st2 hit
      simp only [Option.some.injEq, Prod.mk.injEq] at h
      obtain ⟨rfl, rfl⟩ := h
      exact ⟨0, st, rfl, iteration_mono sink fuel _ st _ hit (by omega)⟩
    · rename_i st2 hit
      obtain ⟨k, stk, hk, hlast⟩ := ih _ _ _ h
      refine ⟨k + 1, stk, ?_, iteration_mono sink fuel _ _ _ hlast (by omega)⟩
      rw [loopHead, iteration_mono sink fuel _ st _ hit (Nat.le_succ fuel)]
      exact loopHead_mono sink fuel _ (Nat.le_succ fuel) _ _ _ hk

/-- Passes that stay in the loop followed by a run from where they end make a
run from where they start. -/
theorem uploadLoop_of_loopHead {σ : Type} (sink : Sink σ) (fuel f : Nat) (hle : fuel ≤ f) :
    ∀ (k : Nat) (st stk : LoopState σ) (r : Exit × LoopState σ),
      loopHead sink fuel k st = some stk → uploadLoop sink f stk = some r →
      uploadLoop sink (f + k) st = some r := by
  intro k
  induction k with
  | zero =>
    intro st stk r h hr
    simp only [loopHead, Option.some.injEq] at h
    subst h
    exact hr
  | succ k ih =>
    intro st stk r h hr
    rw [loopHead] at h
    split at h
    · rename_i st2 hit
      have := ih _ _ _ h hr
      rw [← Nat.add_assoc, uploadLoop, iteration_mono sink fuel (f + k) st _ hit (by omega)]
      exact this
    · simp at h

theorem uploadLoop_of_done {σ : Type} (sink : Sink σ) (fuel : Nat) (st : LoopState σ)
    (e : Exit) (st1 : LoopState σ) (h : iteration sink fuel st = some (.done e st1)) :
    uploadLoop sink (fuel + 1) st = some (e, st1) := by
  rw [uploadLoop, h]

/-! ### The record of calls -/

theorem readStep_ghost {σ : Type} (st : LoopState σ) :
    (readStep st).writes = st.writes ∧ (readStep st).waits = st.waits ∧
    (readStep st).handle = st.handle ∧ (readStep st).sent = st.sent ∧
    (readStep st).file = st.file := by
  simp [readStep]

theorem iteration_writes {σ : Type} (sink : Sink σ) (fuel : Nat) (st : LoopState σ) (r : Step σ)
    (h : iteration sink fuel st = some r) : st.writes <+: r.state.writes := by
  rcases iteration_eq sink fuel st r h with ⟨rfl, -, -⟩ | ⟨-, n, st1, hw, rfl⟩
  · exact List.prefix_refl _
  · obtain ⟨-, -, -, -, -, -, -, k, -, -, hl, -⟩ := writeLoop_spec sink fuel _ n st1 hw
    rw [(afterWrite_fields n st1).2.2.2.2.2, hl, (readStep_ghost st).1, List.append_assoc]
    exact List.prefix_append _ _

theorem uploadLoop_writes {σ : Type} (sink : Sink σ) :
    ∀ (fuel : Nat) (st : LoopState σ) (e : Exit) (st1 : LoopState σ),
      uploadLoop sink fuel st = some (e, st1) → st.writes <+: st1.writes := by
  intro fuel
  induction fuel with
  | zero => intro st e st1 h; simp [uploadLoop] at h
  | succ fuel ih =>
    intro st e st1 h
    rw [uploadLoop] at h
    split at h
    · simp at h
    · rename_i e1 st2 hit
      simp only [Option.some.injEq, Prod.mk.injEq] at h
      have := iteration_writes sink fuel st _ hit
      rw [← h.2]; exact this
    · rename_i st2 hit
      exact (iteration_writes sink fuel st _ hit).trans (ih _ _ _ h)

/-- The exit taken is visible in the last recorded call of the sink. -/
theorem iteration_done_last_write {σ : Type} (sink : Sink σ) (fuel : Nat)
    (st : LoopState σ) (e : Exit) (st1 : LoopState σ)
    (h : iteration sink fuel st = some (.done e st1)) :
    match e with
    | .eof => st1 = st
    | .fatal rc => rc < 0 ∧ rc ≠ LIBSSH2_ERROR_EAGAIN ∧ ∃ buf, (buf, rc) ∈ st1.writes
    | .stalled => ∃ buf, (buf, (0 : Int)) ∈ st1.writes
    | .undefined => ∃ buf n, (buf, n) ∈ st1.writes ∧ (buf.length : Int) < n := by
  rcases iteration_eq sink fuel st _ h with ⟨h1, -, -⟩ | ⟨-, n, st2, hw, h1⟩
  · simp only [Step.done.injEq] at h1
    obtain ⟨rfl, rfl⟩ := h1
    rfl
  · obtain ⟨hne, -, -, hm, hu, -, -, k, -, -, hl, -⟩ := writeLoop_spec sink fuel _ n st2 hw
    have hmem : ((readStep st).pending, n) ∈ st2.writes := by rw [hl]; simp
    have hlen : (readStep st).pending.length ≤ st2.memuse := by
      simp only [LoopState.pending, List.length_take, hu]; omega
    unfold afterWrite at h1
    split at h1
    · rename_i hneg
      simp only [Step.done.injEq] at h1
      obtain ⟨rfl, rfl⟩ := h1
      exact ⟨hneg, hne, _, hmem⟩
    · split at h1
      · rename_i hnn hub
        simp only [Step.done.injEq] at h1
        obtain ⟨rfl, rfl⟩ := h1
        exact ⟨_, n, hmem, by omega⟩
      · simp only at h1
        split at h1
        · simp at h1
        · rename_i hnn hub hpos
          have hz : n = 0 := by omega
          simp only [Step.done.injEq] at h1
          obtain ⟨rfl, rfl⟩ := h1
          subst hz
          simp only
          split <;> exact ⟨_, hmem⟩

/-! ### What stays fixed -/

theorem iteration_const {σ : Type} (sink : Sink σ) (fuel : Nat) (st : LoopState σ) (r : Step σ)
    (hinv : Inv st) (h : iteration sink fuel st = some r) :
    r.state.file = st.file ∧ r.state.mem.length = st.mem.length := by
  rcases iteration_eq sink fuel st r h with ⟨rfl, -, -⟩ | ⟨-, n, st1, hw, rfl⟩
  · exact ⟨rfl, rfl⟩
  · obtain ⟨-, h2, h3, h4, h5, h6, h7, -⟩ := writeLoop_spec sink fuel _ n st1 hw
    have hinv1 : Inv st1 := inv_of_frame _ _ (inv_readStep st hinv) h2 h3 h4 h5 h6 h7
    rw [(afterWrite_fields n st1).1, afterWrite_mem_length n st1 hinv1.memuse_le, h2, h4,
      readStep_mem_length st hinv.memuse_le]
    exact ⟨(readStep_ghost st).2.2.2.2, rfl⟩

theorem loopHead_const {σ : Type} (sink : Sink σ) (fuel : Nat) :
    ∀ (k : Nat) (st st1 : LoopState σ), Inv st → loopHead sink fuel k st = some st1 →
      st1.file = st.file ∧ st1.mem.length = st.mem.length := by
  intro k
  induction k with
  | zero =>
    intro st st1 _ h
    simp only [loopHead, Option.some.injEq] at h
    subst h
    exact ⟨rfl, rfl⟩
  | succ k ih =>
    intro st st1 hinv h
    rw [loopHead] at h
    split at h
    · rename_i st2 hit
      obtain ⟨h1, h2⟩ := ih _ _ (inv_iteration sink fuel st _ hinv hit) h
      obtain ⟨h3, h4⟩ := iteration_const sink fuel st _ hinv hit
      exact ⟨h1.trans h3, h2.trans h4⟩
    · simp at h

theorem iteration_done_eof {σ : Type} (sink : Sink σ) (fuel : Nat) (st st1 : LoopState σ)
    (h : iteration sink fuel st = some (.done .eof st1)) :
    st1 = st ∧ (fread st.file st.pos (st.mem.length - st.memuse)).length = 0 ∧ st.memuse = 0 := by
  rcases iteration_eq sink fuel st _ h with ⟨h1, h2, h3⟩ | ⟨-, n, st2, hw, h1⟩
  · simp only [Step.done.injEq, true_and] at h1
    exact ⟨h1, h2, h3⟩
  · exfalso
    unfold afterWrite at h1
    split at h1
    · simp at h1
    · split at h1
      · simp at h1
      · simp only at h1
        split at h1 <;> simp at h1

/-- Leaving the loop at end of file means that the whole file was read and
accepted. -/
theorem eof_exit_complete {σ : Type} (sink : Sink σ) (file mem : List Byte) (handle : σ)
    (fuel : Nat) (st : LoopState σ) (hmem : 0 < mem.length)
    (h : uploadLoop sink fuel (initState file mem handle) = some (.eof, st)) :
    st.memuse = 0 ∧ st.pos = file.length ∧ st.total = file.length ∧ st.sent = file := by
  obtain ⟨k, stk, hk, hlast⟩ := uploadLoop_last sink fuel _ _ _ h
  have hinv := inv_loopHead sink fuel k _ _ (inv_initState file mem handle) hk
  obtain ⟨hf, hl⟩ := loopHead_const sink fuel k _ _ (inv_initState file mem handle) hk
  obtain ⟨rfl, hr, hu⟩ := iteration_done_eof sink fuel stk st hlast
  have hf1 : st.file = file := hf
  have hl1 : st.mem.length = mem.length := hl
  rw [fread_length, hl1, hu, hf1] at hr
  have hp := hinv.pos_le
  rw [hf1] at hp
  have hpos : st.pos = file.length := by omega
  have hd := hinv.data_eq
  simp only [LoopState.pending, hu, List.take_zero, List.append_nil, hf1, hpos,
    List.take_length] at hd
  exact ⟨hu, hpos, by rw [hinv.total_eq, hpos], hd⟩

theorem inv_sent_length {σ : Type} (st : LoopState σ) (h : Inv st) :
    st.total = st.sent.length + st.memuse := by
  have hd := congrArg List.length h.data_eq
  have h1 := h.memuse_le
  have h2 := h.pos_le
  have h3 := h.total_eq
  simp only [LoopState.pending, List.length_append, List.length_take] at hd
  omega

/-! ### Compaction -/

theorem afterWrite_mem_getElem? {σ : Type} (n : Int) (st : LoopState σ) (h0 : 0 ≤ n)
    (hle : n.toNat ≤ st.memuse) (hmem : st.memuse ≤ st.mem.length) (i : Nat)
    (hi : i < st.memuse - n.toNat) :
    (afterWrite n st).state.mem[i]? = st.mem[n.toNat + i]? := by
  have hneg : ¬ n < 0 := by omega
  have hub : ¬ st.memuse < n.toNat := by omega
  have hz : st.memuse - n.toNat ≠ 0 := by omega
  have hm : (afterWrite n st).state.mem = memmove st.mem n.toNat (st.memuse - n.toNat) := by
    simp only [afterWrite, hneg, hub, hz, if_true, if_false, LoopState.pending]
    split <;> simp [Step.state]
  rw [hm, memmove]
  rw [List.getElem?_append_left (by simp; omega)]
  rw [List.getElem?_take_of_lt hi, List.getElem?_drop]

/-! ### Waits and would-block answers -/

/-- The number of would-block answers among the recorded calls. -/
theorem iteration_waits {σ : Type} (sink : Sink σ) (fuel : Nat) (st : LoopState σ) (r : Step σ)
    (hw : st.waits = (st.writes.map Prod.snd).count LIBSSH2_ERROR_EAGAIN)
    (h : iteration sink fuel st = some r) :
    r.state.waits = (r.state.writes.map Prod.snd).count LIBSSH2_ERROR_EAGAIN := by
  rcases iteration_eq sink fuel st r h with ⟨rfl, -, -⟩ | ⟨-, n, st1, hwl, rfl⟩
  · exact hw
  · obtain ⟨hne, -, -, -, -, -, -, k, -, hwaits, hlog, -⟩ := writeLoop_spec sink fuel _ n st1 hwl
    obtain ⟨-, -, -, -, f5, f6⟩ := afterWrite_fields n st1
    rw [f5, f6, hwaits, hlog, (readStep_ghost st).1, (readStep_ghost st).2.1, hw]
    simp only [List.map_append, List.map_replicate, List.map_cons, List.map_nil,
      List.count_append, List.count_replicate_self, List.count_cons, List.count_nil]
    simp [hne]

theorem uploadLoop_waits {σ : Type} (sink : Sink σ) :
    ∀ (fuel : Nat) (st : LoopState σ) (e : Exit) (st1 : LoopState σ),
      st.waits = (st.writes.map Prod.snd).count LIBSSH2_ERROR_EAGAIN →
      uploadLoop sink fuel st = some (e, st1) →
      st1.waits = (st1.writes.map Prod.snd).count LIBSSH2_ERROR_EAGAIN := by
  intro fuel
  induction fuel with
  | zero => intro st e st1 _ h; simp [uploadLoop] at h
  | succ fuel ih =>
    intro st e st1 hw h
    rw [uploadLoop] at h
    split at h
    · simp at h
    · rename_i e1 st2 hit
      simp only [Option.some.injEq, Prod.mk.injEq] at h
      have := iteration_waits sink fuel st _ hw hit
      rw [← h.2]; exact this
    · rename_i st2 hit
      exact ih _ _ _ (iteration_waits sink fuel st _ hw hit) h

/-! ### Progress and termination -/

theorem iteration_of_writeLoop {σ : Type} (sink : Sink σ) (fuel : Nat) (st : LoopState σ)
    (n : Int) (st1 : LoopState σ) (hmore : 0 < (readStep st).memuse)
    (hw : writeLoop sink fuel (readStep st) = some (n, st1)) :
    iteration sink fuel st = some (afterWrite n st1) := by
  unfold iteration
  simp only [hw]
  rw [if_neg]
  simp only [readStep] at hmore
  omega

theorem iteration_terminates {σ : Type} (sink : Sink σ) (ha : SinkAnswers sink)
    (st : LoopState σ) : ∃ fuel r, iteration sink fuel st = some r := by
  by_cases hmore : 0 < (readStep st).memuse
  · obtain ⟨k, hk⟩ := ha (readStep st).handle (readStep st).pending
    obtain ⟨r, hr⟩ := writeLoop_terminates sink k (readStep st) hk
    exact ⟨k + 1, _, iteration_of_writeLoop sink (k + 1) st r.1 r.2 hmore hr⟩
  · refine ⟨0, .done .eof st, ?_⟩
    unfold iteration
    simp only
    rw [if_pos]
    simp only [readStep] at hmore
    omega

theorem writeLoop_bounded {σ : Type} (sink : Sink σ) (hb : SinkBounded sink) (fuel : Nat)
    (st : LoopState σ) (n : Int) (st1 : LoopState σ)
    (hw : writeLoop sink fuel st = some (n, st1)) : n.toNat ≤ st1.memuse := by
  obtain ⟨-, -, -, -, h5, -, -, j, -, -, -, hn, -, -⟩ := writeLoop_spec sink fuel _ n st1 hw
  have h := hb (retryHandle sink st.pending j st.handle) st.pending
  rw [← hn] at h
  have hplen : st.pending.length ≤ st.memuse := by
    simp only [LoopState.pending, List.length_take]; omega
  omega

theorem afterWrite_next {σ : Type} (n : Int) (st : LoopState σ) (hpos : 0 < n)
    (hle : n.toNat ≤ st.memuse) : ∃ st1, afterWrite n st = .next st1 := by
  have hneg : ¬ n < 0 := by omega
  have hub : ¬ st.memuse < n.toNat := by omega
  simp only [afterWrite, hneg, hub, if_false, hpos, if_true]
  exact ⟨_, rfl⟩

theorem afterWrite_cases {σ : Type} (n : Int) (st : LoopState σ) (hle : n.toNat ≤ st.memuse) :
    (∃ e st1, afterWrite n st = .done e st1 ∧ e ≠ .undefined ∧ e ≠ .eof ∧ n ≤ 0) ∨
    (∃ st1, afterWrite n st = .next st1 ∧ 0 < n) := by
  have hub : ¬ st.memuse < n.toNat := by omega
  by_cases hneg : n < 0
  · left
    exact ⟨.fatal n, st, by simp [afterWrite, hneg], by simp, by simp, by omega⟩
  · by_cases hpos : 0 < n
    · right
      obtain ⟨st1, h1⟩ := afterWrite_next n st hpos hle
      exact ⟨st1, h1, hpos⟩
    · left
      simp only [afterWrite, hneg, hub, if_false, hpos]
      exact ⟨.stalled, _, rfl, by simp, by simp, by omega⟩

/-- A pass either leaves the loop or takes bytes off what is outstanding. -/
theorem iteration_progress {σ : Type} (sink : Sink σ) (hb : SinkBounded sink) (fuel : Nat)
    (st : LoopState σ) (r : Step σ) (h : iteration sink fuel st = some r) :
    (∃ e st1, r = .done e st1 ∧ e ≠ .undefined) ∨
    (∃ st1, r = .next st1 ∧ st1.outstanding < st.outstanding) := by
  rcases iteration_eq sink fuel st r h with ⟨rfl, -, -⟩ | ⟨-, n, st1, hw, rfl⟩
  · exact Or.inl ⟨_, _, rfl, by simp⟩
  · have hle := writeLoop_bounded sink hb fuel _ n st1 hw
    obtain ⟨-, h2, h3, -, h5, -, -, -⟩ := writeLoop_spec sink fuel _ n st1 hw
    rcases afterWrite_cases n st1 hle with ⟨e, st2, h1, h6, -, -⟩ | ⟨st2, h1, hpos⟩
    · exact Or.inl ⟨e, st2, h1, h6⟩
    · right
      refine ⟨st2, h1, ?_⟩
      have hm := afterWrite_memuse n st1 hle
      obtain ⟨f1, f2, -⟩ := afterWrite_fields n st1
      rw [h1] at hm f1 f2
      simp only [Step.state] at hm f1 f2
      have hlen := fread_length st.file st.pos (st.mem.length - st.memuse)
      have e1 : st2.file = st.file := f1.trans h2
      have e2 : st2.pos = st.pos + (fread st.file st.pos (st.mem.length - st.memuse)).length :=
        f2.trans h3
      have e3 : st1.memuse
          = st.memuse + (fread st.file st.pos (st.mem.length - st.memuse)).length := h5
      rw [LoopState.outstanding, LoopState.outstanding, e1, e2, hm, e3]
      omega

theorem uploadLoop_terminates {σ : Type} (sink : Sink σ) (hb : SinkBounded sink)
    (ha : SinkAnswers sink) :
    ∀ (m : Nat) (st : LoopState σ), st.outstanding ≤ m →
      ∃ fuel e st1, uploadLoop sink fuel st = some (e, st1) ∧ e ≠ .undefined := by
  intro m
  induction m with
  | zero =>
    intro st hm
    obtain ⟨f, r, hr⟩ := iteration_terminates sink ha st
    rcases iteration_progress sink hb f st r hr with ⟨e, st1, rfl, he⟩ | ⟨st1, rfl, hlt⟩
    · exact ⟨f + 1, e, st1, uploadLoop_of_done sink f st e st1 hr, he⟩
    · omega
  | succ m ih =>
    intro st hm
    obtain ⟨f, r, hr⟩ := iteration_terminates sink ha st
    rcases iteration_progress sink hb f st r hr with ⟨e, st1, rfl, he⟩ | ⟨st1, rfl, hlt⟩
    · exact ⟨f + 1, e, st1, uploadLoop_of_done sink f st e st1 hr, he⟩
    · obtain ⟨f2, e, st2, h2, he⟩ := ih st1 (by omega)
      refine ⟨max f f2 + 1, e, st2, ?_, he⟩
      rw [uploadLoop, iteration_mono sink f _ st _ hr (Nat.le_max_left f f2)]
      exact uploadLoop_mono sink f2 _ st1 _ h2 (Nat.le_max_right f f2)

/-! ### The sink that blocks `N` times and then accepts everything -/

theorem retryHandle_blockThenAll (N : Nat) (buf : List Byte) :
    ∀ (k s : Nat), retryHandle (sinkBlockThenAll N) buf k s = s + k := by
  intro k
  induction k with
  | zero => intro s; rfl
  | succ k ih =>
    intro s
    rw [retryHandle, ih]
    simp only [sinkBlockThenAll]
    omega

theorem blockThenAll_answer (N s : Nat) (buf : List Byte) :
    (sinkBlockThenAll N s buf).1 = LIBSSH2_ERROR_EAGAIN ↔ s < N := by
  simp only [sinkBlockThenAll, LIBSSH2_ERROR_EAGAIN]
  constructor
  · intro h
    by_contra hc
    rw [if_neg hc] at h
    omega
  · intro h
    rw [if_pos h]

theorem sinkBlockThenAll_bounded (N : Nat) : SinkBounded (sinkBlockThenAll N) := by
  intro s buf
  simp only [sinkBlockThenAll]
  split
  · simp only [LIBSSH2_ERROR_EAGAIN]; omega
  · exact le_refl _

theorem sinkBlockThenAll_answers (N : Nat) : SinkAnswers (sinkBlockThenAll N) := by
  intro s buf
  refine ⟨N, ?_⟩
  rw [retryHandle_blockThenAll, Ne, blockThenAll_answer]
  omega

/-- A pass that starts with an empty buffer and an unread rest of the file: the
sink blocks as often as it still has to, then takes the whole chunk. -/
theorem blockThenAll_pass (N : Nat) (st : LoopState Nat)
    (hu : st.memuse = 0) (hpos : st.pos < st.file.length) (hmem : 0 < st.mem.length) :
    ∃ st1, iteration (sinkBlockThenAll N) (N - st.handle + 1) st = some (.next st1) ∧
      st1.memuse = 0 ∧ N < st1.handle ∧ st1.waits = st.waits + (N - st.handle) ∧
      st1.writes = st.writes
        ++ List.replicate (N - st.handle) (fread st.file st.pos st.mem.length, LIBSSH2_ERROR_EAGAIN)
        ++ [(fread st.file st.pos st.mem.length,
              ((fread st.file st.pos st.mem.length).length : Int))] ∧
      st.pos < st1.pos := by
  have hlen := fread_length st.file st.pos st.mem.length
  have hru : (readStep st).memuse = (fread st.file st.pos st.mem.length).length := by
    simp [readStep, hu]
  have hchunk : (readStep st).pending = fread st.file st.pos st.mem.length := by
    have := store_take st.mem 0 (fread st.file st.pos st.mem.length) (Nat.zero_le _)
    simp only [Nat.zero_add, List.take_zero, List.nil_append] at this
    simp only [LoopState.pending, readStep, hu, Nat.sub_zero, Nat.zero_add]
    exact this
  have hmore : 0 < (readStep st).memuse := by rw [hru, hlen]; omega
  have hlast : (sinkBlockThenAll N
      (retryHandle (sinkBlockThenAll N) (readStep st).pending (N - st.handle) (readStep st).handle)
      (readStep st).pending).1 ≠ LIBSSH2_ERROR_EAGAIN := by
    rw [retryHandle_blockThenAll, Ne, blockThenAll_answer, (readStep_ghost st).2.2.1]
    omega
  obtain ⟨⟨n, st1⟩, hw⟩ := writeLoop_terminates _ (N - st.handle) (readStep st) hlast
  obtain ⟨hne, -, h3, -, h5, -, -, k, -, hwaits, hlog, hn, hh, hj⟩ :=
    writeLoop_spec _ _ _ n st1 hw
  rw [retryHandle_blockThenAll, (readStep_ghost st).2.2.1] at hn hh
  have hk : k = N - st.handle := by
    have h1 : ¬ st.handle + k < N := by
      intro hc
      exact hne (hn.trans ((blockThenAll_answer N _ _).2 hc))
    by_contra hc
    have h2 := hj (N - st.handle) (by omega)
    rw [retryHandle_blockThenAll, (readStep_ghost st).2.2.1, blockThenAll_answer] at h2
    omega
  have hnval : n = ((fread st.file st.pos st.mem.length).length : Int) := by
    rw [hn, hchunk]
    simp only [sinkBlockThenAll]
    rw [if_neg]
    omega
  have hle : n.toNat ≤ st1.memuse := by rw [h5, hru, hnval]; simp
  obtain ⟨st2, h2⟩ := afterWrite_next n st1 (by rw [hnval, hlen]; omega) hle
  have hit := iteration_of_writeLoop _ _ st n st1 hmore hw
  rw [h2] at hit
  have hm := afterWrite_memuse n st1 hle
  obtain ⟨-, f2, -, f4, f5, f6⟩ := afterWrite_fields n st1
  rw [h2] at hm f2 f4 f5 f6
  simp only [Step.state] at hm f2 f4 f5 f6
  refine ⟨st2, hit, ?_, ?_, ?_, ?_, ?_⟩
  · rw [hm, h5, hru, hnval]; simp
  · rw [f4, hh]; simp only [sinkBlockThenAll]; omega
  · rw [f5, hwaits, (readStep_ghost st).2.1, hk]
  · rw [f6, hlog, (readStep_ghost st).1, hchunk, hk, hnval]
  · rw [f2, h3]
    simp only [readStep, hu, Nat.sub_zero]
    omega

/-- Once the sink has stopped blocking, the loop runs to the end of the file
without a further wait. -/
theorem blockThenAll_drain (N : Nat) :
    ∀ (m : Nat) (st : LoopState Nat), Inv st → st.memuse = 0 → N ≤ st.handle →
      0 < st.mem.length → st.file.length - st.pos ≤ m →
      ∃ fuel st1, uploadLoop (sinkBlockThenAll N) fuel st = some (.eof, st1) ∧
        st1.waits = st.waits := by
  intro m
  induction m with
  | zero =>
    intro st hinv hu hh hmem hm
    refine ⟨1, st, uploadLoop_of_done _ 0 st _ _ ?_, rfl⟩
    have hlen := fread_length st.file st.pos (st.mem.length - st.memuse)
    unfold iteration
    simp only
    rw [if_pos]
    omega
  | succ m ih =>
    intro st hinv hu hh hmem hm
    by_cases hpos : st.pos < st.file.length
    · obtain ⟨st1, hit, h1, h2, h3, -, h5⟩ := blockThenAll_pass N st hu hpos hmem
      have hN : N - st.handle = 0 := by omega
      rw [hN] at hit h3
      obtain ⟨hf, hl⟩ := iteration_const _ _ st _ hinv hit
      simp only [Step.state] at hf hl
      have hinv1 : Inv st1 := inv_iteration _ _ st _ hinv hit
      obtain ⟨f2, st2, hrun, hw⟩ := ih st1 hinv1 h1 (by omega) (by omega) (by rw [hf]; omega)
      refine ⟨f2 + 1 + 1, st2, ?_, by rw [hw, h3]; rfl⟩
      rw [uploadLoop, iteration_mono _ _ (f2 + 1) st _ hit (by omega)]
      exact uploadLoop_mono _ f2 _ st1 _ hrun (by omega)
    · refine ⟨1, st, uploadLoop_of_done _ 0 st _ _ ?_, rfl⟩
      have hlen := fread_length st.file st.pos (st.mem.length - st.memuse)
      unfold iteration
      simp only
      rw [if_pos]
      omega

/-! ### The sink that accepts a fixed number of bytes -/

theorem writeLoop_sinkChunk (c : Nat) (st : LoopState Unit) :
    ∃ st1, writeLoop (sinkChunk c) 1 st = some ((c : Int), st1) := by
  have hne : ¬ ((c : Int) = LIBSSH2_ERROR_EAGAIN) := by
    simp only [LIBSSH2_ERROR_EAGAIN]; omega
  rw [writeLoop]
  simp only [sinkChunk, hne, if_false]
  exact ⟨_, rfl⟩

/-- A pass with the fixed-size sink, when at least `c` bytes are on offer. -/
theorem sinkChunk_pass (c : Nat) (hc : 0 < c) (st : LoopState Unit) (hinv : Inv st)
    (henough : c ≤ st.memuse + min (st.mem.length - st.memuse) (st.file.length - st.pos)) :
    ∃ st1, iteration (sinkChunk c) 1 st = some (.next st1) ∧ Inv st1 ∧
      st1.file = st.file ∧ st1.mem.length = st.mem.length ∧
      st1.pos = st.pos + min (st.mem.length - st.memuse) (st.file.length - st.pos) ∧
      st1.memuse = st.memuse + min (st.mem.length - st.memuse) (st.file.length - st.pos) - c ∧
      st1.writes.map Prod.snd = st.writes.map Prod.snd ++ [(c : Int)] := by
  have hlen := fread_length st.file st.pos (st.mem.length - st.memuse)
  have hru : (readStep st).memuse
      = st.memuse + min (st.mem.length - st.memuse) (st.file.length - st.pos) := by
    simp only [readStep]; omega
  have hrp : (readStep st).pos
      = st.pos + min (st.mem.length - st.memuse) (st.file.length - st.pos) := by
    simp only [readStep]; omega
  obtain ⟨st1, hw⟩ := writeLoop_sinkChunk c (readStep st)
  obtain ⟨-, -, h3, -, h5, -, -, k, hk, -, hlog, -⟩ := writeLoop_spec _ _ _ _ st1 hw
  have hk0 : k = 0 := by omega
  subst hk0
  have hle : (c : Int).toNat ≤ st1.memuse := by rw [h5, hru]; simp; omega
  obtain ⟨st2, h2⟩ := afterWrite_next (c : Int) st1 (by omega) hle
  have hit := iteration_of_writeLoop _ _ st _ st1 (by omega) hw
  rw [h2] at hit
  have hm := afterWrite_memuse (c : Int) st1 hle
  obtain ⟨-, f2, -, -, -, f6⟩ := afterWrite_fields (c : Int) st1
  rw [h2] at hm f2 f6
  simp only [Step.state] at hm f2 f6
  obtain ⟨hf, hl⟩ := iteration_const _ _ st _ hinv hit
  refine ⟨st2, hit, inv_iteration _ _ st _ hinv hit, hf, hl, ?_, ?_, ?_⟩
  · rw [f2, h3, hrp]
  · rw [hm, h5, hru]; simp
  · rw [f6, hlog, (readStep_ghost st).1]; simp

theorem loopHead_succ {σ : Type} (sink : Sink σ) (fuel k : Nat) (st st1 st2 : LoopState σ)
    (hit : iteration sink fuel st = some (.next st1))
    (hk : loopHead sink fuel k st1 = some st2) : loopHead sink fuel (k + 1) st = some st2 := by
  rw [loopHead, hit]; exact hk

/-- The scenario of 2,500,000 source bytes through the buffer of 1,024,000 bytes
with a sink that takes 500,000 bytes a call: five passes, then end of file. -/
theorem scenario_run (file mem : List Byte) (hfile : file.length = 2500000)
    (hmem : mem.length = 1024000) :
    ∃ st, uploadLoop (sinkChunk 500000) 6 (initState file mem ()) = some (.eof, st) ∧
      st.writes.map Prod.snd = List.replicate 5 (500000 : Int) := by
  have hinv0 : Inv (initState file mem ()) := inv_initState file mem ()
  -- first pass: 1,024,000 bytes read, 524,000 left in the buffer
  obtain ⟨s1, i1, v1, f1, l1, p1, u1, w1⟩ := sinkChunk_pass 500000 (by omega) _ hinv0
    (by simp only [initState]; omega)
  have a1 : s1.file.length = 2500000 := by rw [f1]; exact hfile
  have b1 : s1.mem.length = 1024000 := by rw [l1]; exact hmem
  have c1 : s1.pos = 1024000 := by
    rw [p1]; simp only [initState, hfile, hmem]; norm_num
  have d1 : s1.memuse = 524000 := by
    rw [u1]; simp only [initState, hfile, hmem]; norm_num
  -- second pass: 500,000 bytes read
  obtain ⟨s2, i2, v2, f2, l2, p2, u2, w2⟩ := sinkChunk_pass 500000 (by omega) s1 v1
    (by rw [a1, b1, c1, d1]; norm_num)
  have a2 : s2.file.length = 2500000 := by rw [f2]; exact a1
  have b2 : s2.mem.length = 1024000 := by rw [l2]; exact b1
  have c2 : s2.pos = 1524000 := by rw [p2, a1, b1, c1, d1]; norm_num
  have d2 : s2.memuse = 524000 := by rw [u2, a1, b1, c1, d1]; norm_num
  -- third pass: 500,000 bytes read
  obtain ⟨s3, i3, v3, f3, l3, p3, u3, w3⟩ := sinkChunk_pass 500000 (by omega) s2 v2
    (by rw [a2, b2, c2, d2]; norm_num)
  have a3 : s3.file.length = 2500000 := by rw [f3]; exact a2
  have b3 : s3.mem.length = 1024000 := by rw [l3]; exact b2
  have c3 : s3.pos = 2024000 := by rw [p3, a2, b2, c2, d2]; norm_num
  have d3 : s3.memuse = 524000 := by rw [u3, a2, b2, c2, d2]; norm_num
  -- fourth pass: the last 476,000 bytes read
  obtain ⟨s4, i4, v4, f4, l4, p4, u4, w4⟩ := sinkChunk_pass 500000 (by omega) s3 v3
    (by rw [a3, b3, c3, d3]; norm_num)
  have a4 : s4.file.length = 2500000 := by rw [f4]; exact a3
  have b4 : s4.mem.length = 1024000 := by rw [l4]; exact b3
  have c4 : s4.pos = 2500000 := by rw [p4, a3, b3, c3, d3]; norm_num
  have d4 : s4.memuse = 500000 := by rw [u4, a3, b3, c3, d3]; norm_num
  -- fifth pass: nothing read, the buffer is flushed
  obtain ⟨s5, i5, v5, f5, l5, p5, u5, w5⟩ := sinkChunk_pass 500000 (by omega) s4 v4
    (by rw [a4, b4, c4, d4]; norm_num)
  have a5 : s5.file.length = 2500000 := by rw [f5]; exact a4
  have c5 : s5.pos = 2500000 := by rw [p5, a4, b4, c4, d4]; norm_num
  have d5 : s5.memuse = 0 := by rw [u5, a4, b4, c4, d4]; norm_num
  -- sixth pass: end of file
  have hlast : iteration (sinkChunk 500000) 0 s5 = some (.done .eof s5) := by
    have hlen := fread_length s5.file s5.pos (s5.mem.length - s5.memuse)
    unfold iteration
    simp only
    rw [if_pos]
    omega
  have hhead : loopHead (sinkChunk 500000) 1 5 (initState file mem ()) = some s5 :=
    loopHead_succ _ _ _ _ _ _ i1 (loopHead_succ _ _ _ _ _ _ i2 (loopHead_succ _ _ _ _ _ _ i3
      (loopHead_succ _ _ _ _ _ _ i4 (loopHead_succ _ _ _ _ _ _ i5 rfl))))
  have hrun := uploadLoop_of_loopHead (sinkChunk 500000) 1 1 (Nat.le_refl 1) 5 _ _ _ hhead
    (uploadLoop_of_done _ 0 s5 _ _ hlast)
  refine ⟨s5, hrun, ?_⟩
  rw [w5, w4, w3, w2, w1]
  rfl

/-! ## Properties of the upload loop and of `main` -/

/-- C1, as stated, fails: a sink that accepts two bytes and then answers "accept 0"
ends the loop (its condition is `nwritten > 0`) with four of the six source bytes
never accepted. -/
theorem C1_counterexample :
    (uploadLoop sinkScript 3 (initState [1, 2, 3, 4, 5, 6] [0, 0, 0, 0] [2, 0])).map
        (fun r => (r.1, r.2.sent, r.2.writes.map Prod.snd))
      = some (Exit.stalled, [1, 2], [2, 0]) ∧
    ([1, 2] : List Byte) ≠ [1, 2, 3, 4, 5, 6] := by
  decide

/-- C1 (amended): for every source, every buffer of positive size and every run of
the upload loop that has ended, if each answer of the sink was would-block or an
accepted count `n` with `0 ≤ n ≤ used`, then the loop ended at end of file or on
an "accept 0" answer, the concatenation of the accepted chunks is a prefix of the
source (no byte reordered or skipped), and it is the whole source when the loop
ended at end of file, which is the case whenever no answer was "accept 0". -/
theorem C1_accepted_chunks_in_order {σ : Type} (sink : Sink σ) (file mem : List Byte)
    (handle : σ) (fuel : Nat) (e : Exit) (st : LoopState σ)
    (hmem : 0 < mem.length)
    (hrun : uploadLoop sink fuel (initState file mem handle) = some (e, st))
    (hresp : ∀ w ∈ st.writes,
      w.2 = LIBSSH2_ERROR_EAGAIN ∨ (0 ≤ w.2 ∧ w.2 ≤ (w.1.length : Int))) :
    st.sent <+: file ∧
    (e = .eof ∨ e = .stalled) ∧
    (e = .eof → st.sent = file) ∧
    ((∀ w ∈ st.writes, w.2 ≠ 0) → e = .eof ∧ st.sent = file) := by
  obtain ⟨k, stk, hk, hlast⟩ := uploadLoop_last sink fuel _ _ _ hrun
  have hinv0 := inv_initState file mem handle
  have hinv := inv_uploadLoop sink fuel _ _ _ hinv0 hrun
  have hinvk := inv_loopHead sink fuel k _ _ hinv0 hk
  have hfile : st.file = file :=
    (iteration_const sink fuel stk _ hinvk hlast).1.trans (loopHead_const sink fuel k _ _ hinv0 hk).1
  have hexit := iteration_done_last_write sink fuel stk e st hlast
  have hpre : st.sent <+: file := by
    have h1 : st.sent <+: st.file.take st.pos := ⟨_, hinv.data_eq⟩
    rw [hfile] at h1
    exact h1.trans (List.take_prefix _ _)
  have hcomplete : e = .eof → st.sent = file := by
    intro he
    subst he
    exact (eof_exit_complete sink file mem handle fuel st hmem hrun).2.2.2
  have hkind : e = .eof ∨ e = .stalled := by
    cases e with
    | eof => exact Or.inl rfl
    | stalled => exact Or.inr rfl
    | fatal rc =>
      exfalso
      obtain ⟨hneg, hne, buf, hin⟩ := hexit
      rcases hresp _ hin with h1 | ⟨h1, -⟩
      · exact hne h1
      · simp only at h1; omega
    | undefined =>
      exfalso
      obtain ⟨buf, n, hin, hlt⟩ := hexit
      rcases hresp _ hin with h1 | ⟨-, h1⟩
      · simp only [LIBSSH2_ERROR_EAGAIN] at h1; omega
      · simp only at h1; omega
  refine ⟨hpre, hkind, hcomplete, ?_⟩
  intro hnz
  have he : e = .eof := by
    rcases hkind with h | h
    · exact h
    · exfalso
      subst h
      obtain ⟨buf, hin⟩ := hexit
      exact hnz _ hin rfl
  exact ⟨he, hcomplete he⟩

/-- Witness of C1 (amended): a seven-byte source through a four-byte buffer, the
sink answering 2, would-block, 1, 4. -/
theorem C1_accepted_chunks_in_order_witness :
    uploadLoop sinkScript 10 (initState [1, 2, 3, 4, 5, 6, 7] [0, 0, 0, 0] [2, -37, 1, 4])
      = some (Exit.eof,
          { file := [1, 2, 3, 4, 5, 6, 7], pos := 7, mem := [4, 5, 6, 7], memuse := 0,
            total := 7, handle := [], sent := [1, 2, 3, 4, 5, 6, 7], waits := 1,
            writes := [([1, 2, 3, 4], 2), ([3, 4, 5, 6], -37), ([3, 4, 5, 6], 1),
              ([4, 5, 6, 7], 4)] }) ∧
    ([1, 2, 3, 4, 5, 6, 7] : List Byte) <+: [1, 2, 3, 4, 5, 6, 7] ∧
    (Exit.eof = Exit.eof ∨ Exit.eof = Exit.stalled) := by
  have hrun : uploadLoop sinkScript 10
      (initState [1, 2, 3, 4, 5, 6, 7] [0, 0, 0, 0] [2, -37, 1, 4])
      = some (Exit.eof,
          { file := [1, 2, 3, 4, 5, 6, 7], pos := 7, mem := [4, 5, 6, 7], memuse := 0,
            total := 7, handle := [], sent := [1, 2, 3, 4, 5, 6, 7], waits := 1,
            writes := [([1, 2, 3, 4], 2), ([3, 4, 5, 6], -37), ([3, 4, 5, 6], 1),
              ([4, 5, 6, 7], 4)] }) := by decide
  have h := C1_accepted_chunks_in_order sinkScript _ _ _ _ _ _ (by decide) hrun (by decide)
  exact ⟨hrun, h.1, h.2.1⟩

/-- C3, as stated, fails: the sink accepts 2 bytes and then fails; the loop ends
with `total = 6`, the number of bytes read, not the 2 bytes accepted. -/
theorem C3_counterexample :
    (uploadLoop sinkScript 3 (initState [1, 2, 3, 4, 5, 6] [0, 0, 0, 0] [2])).map
        (fun r => (r.1, r.2.sent.length, r.2.total))
      = some (Exit.fatal (-1), 2, 6) := by
  decide

/-- C3 (amended): when, after `k` passes of the loop, the sink answers the write
of the next pass with a fatal error `rc` (negative, not would-block), the upload
loop terminates with that error, nothing more is accepted, and the total it
reports is the number of bytes read from the source so far: the `K` bytes accepted
plus the `memuse` bytes still buffered. -/
theorem C3_fatal_reports_bytes_read {σ : Type} (sink : Sink σ) (file mem : List Byte)
    (handle : σ) (fuel k : Nat) (st st1 : LoopState σ) (rc : Int)
    (hhead : loopHead sink fuel k (initState file mem handle) = some st)
    (hmore : 0 < (readStep st).memuse)
    (hw : writeLoop sink fuel (readStep st) = some (rc, st1))
    (hneg : rc < 0) :
    uploadLoop sink (fuel + 1 + k) (initState file mem handle) = some (.fatal rc, st1) ∧
    st1.sent = st.sent ∧
    st1.total = st1.sent.length + st1.memuse ∧
    st1.total = st1.pos ∧
    st1.sent.length ≤ st1.total := by
  have hinv0 := inv_initState file mem handle
  have hinvk := inv_loopHead sink fuel k _ _ hinv0 hhead
  have hit : iteration sink fuel st = some (.done (.fatal rc) st1) := by
    unfold iteration
    simp only [hw]
    rw [if_neg]
    · simp [afterWrite, hneg]
    · simp only [readStep] at hmore
      omega
  have hrun := uploadLoop_of_loopHead sink fuel (fuel + 1) (Nat.le_succ fuel) k _ _ _ hhead
    (uploadLoop_of_done sink fuel st _ _ hit)
  have hinv1 : Inv st1 := inv_iteration sink fuel st _ hinvk hit
  obtain ⟨-, -, -, -, -, -, h7, -⟩ := writeLoop_spec sink fuel _ rc st1 hw
  have hlen := inv_sent_length st1 hinv1
  exact ⟨hrun, h7.trans (readStep_ghost st).2.2.2.1, hlen, hinv1.total_eq, by omega⟩

/-- Witness of C3 (amended): after one pass that accepted 2 of 6 bytes the sink
fails; the loop ends with `total = 6 = 2 + 4`. -/
theorem C3_fatal_reports_bytes_read_witness :
    uploadLoop sinkScript (2 + 1 + 1) (initState [1, 2, 3, 4, 5, 6] [0, 0, 0, 0] [2])
      = some (Exit.fatal (-1),
          { file := [1, 2, 3, 4, 5, 6], pos := 6, mem := [3, 4, 5, 6], memuse := 4,
            total := 6, handle := [], sent := [1, 2], waits := 0,
            writes := [([1, 2, 3, 4], 2), ([3, 4, 5, 6], -1)] }) :=
  (C3_fatal_reports_bytes_read sinkScript [1, 2, 3, 4, 5, 6] [0, 0, 0, 0] [2] 2 1
    { file := [1, 2, 3, 4, 5, 6], pos := 4, mem := [3, 4, 3, 4], memuse := 2,
      total := 4, handle := [], sent := [1, 2], waits := 0,
      writes := [([1, 2, 3, 4], 2)] }
    _ (-1) (by decide) (by decide) (by decide) (by decide)).1

/-- C7: with an empty source the first pass of the upload loop leaves it at the
end-of-file `break`, whatever the sink: 0 bytes transferred, `memuse = 0`, no
call of the sink's write and no wait. -/
theorem C7_empty_source {σ : Type} (sink : Sink σ) (mem : List Byte) (handle : σ)
    (fuel : Nat) :
    iteration sink fuel (initState [] mem handle)
      = some (.done .eof (initState [] mem handle)) ∧
    uploadLoop sink (fuel + 1) (initState [] mem handle)
      = some (.eof, initState [] mem handle) ∧
    (initState [] mem handle).total = 0 ∧
    (initState [] mem handle).memuse = 0 ∧
    (initState [] mem handle).sent = [] ∧
    (initState [] mem handle).writes = [] ∧
    (initState [] mem handle).waits = 0 := by
  have hit : iteration sink fuel (initState [] mem handle)
      = some (.done .eof (initState [] mem handle)) := by
    simp [iteration, initState, fread]
  exact ⟨hit, uploadLoop_of_done sink fuel _ _ _ hit, rfl, rfl, rfl, rfl, rfl⟩

/-- C5: with a sink whose results never exceed the number of bytes offered, at the
head of every pass of the upload loop, after the read of that pass and at the end
of that pass `memuse` is at most the size of `mem` (which does not change), and
the write of the pass, return code `n`, is offered the same `memuse` bytes at each
retry and leaves `memuse` reduced by exactly the accepted count: unchanged for
`n ≤ 0` (nothing accepted, or an error). -/
theorem C5_used_within_capacity {σ : Type} (sink : Sink σ) (file mem : List Byte)
    (handle : σ) (fuel k : Nat) (st : LoopState σ)
    (hsink : SinkBounded sink)
    (hhead : loopHead sink fuel k (initState file mem handle) = some st) :
    (st.memuse ≤ mem.length ∧ st.mem.length = mem.length) ∧
    ((readStep st).memuse ≤ mem.length ∧ (readStep st).mem.length = mem.length) ∧
    (∀ r, iteration sink fuel st = some r →
      r.state.memuse ≤ mem.length ∧ r.state.mem.length = mem.length) ∧
    (∀ n st1, writeLoop sink fuel (readStep st) = some (n, st1) →
      (∃ j, st1.writes = (readStep st).writes
          ++ List.replicate j ((readStep st).pending, LIBSSH2_ERROR_EAGAIN)
          ++ [((readStep st).pending, n)]) ∧
      st1.memuse = (readStep st).memuse ∧ st1.mem = (readStep st).mem ∧
      n.toNat ≤ st1.memuse ∧
      (afterWrite n st1).state.memuse = st1.memuse - n.toNat ∧
      (n ≤ 0 → (afterWrite n st1).state.memuse = st1.memuse)) := by
  have hinv0 := inv_initState file mem handle
  have hinv := inv_loopHead sink fuel k _ _ hinv0 hhead
  obtain ⟨-, hl⟩ := loopHead_const sink fuel k _ _ hinv0 hhead
  have hl0 : st.mem.length = mem.length := hl
  have hinvr := inv_readStep st hinv
  have hlr := readStep_mem_length st hinv.memuse_le
  refine ⟨⟨hl0 ▸ hinv.memuse_le, hl0⟩, ⟨?_, hlr.trans hl0⟩, ?_, ?_⟩
  · have := hinvr.memuse_le
    omega
  · intro r hr
    have h1 := (inv_iteration sink fuel st r hinv hr).memuse_le
    have h2 := (iteration_const sink fuel st r hinv hr).2
    exact ⟨by omega, h2.trans hl0⟩
  · intro n st1 hw
    obtain ⟨-, -, -, h4, h5, -, -, j, -, -, hlog, hn, -, -⟩ := writeLoop_spec sink fuel _ n st1 hw
    have hb := hsink (retryHandle sink (readStep st).pending j (readStep st).handle)
      (readStep st).pending
    rw [← hn] at hb
    have hplen : (readStep st).pending.length ≤ (readStep st).memuse := by
      simp only [LoopState.pending, List.length_take]; omega
    have hle : n.toNat ≤ st1.memuse := by omega
    refine ⟨⟨j, hlog⟩, h5, h4, hle, afterWrite_memuse n st1 hle, ?_⟩
    intro hn0
    rw [afterWrite_memuse n st1 hle]
    omega

/-- Witness of C5: a six-byte source and a four-byte buffer, one pass done with
the sink that blocks once. -/
theorem C5_used_within_capacity_witness :
    loopHead (sinkBlockThenAll 1) 3 1 (initState [1, 2, 3, 4, 5, 6] [0, 0, 0, 0] 0)
      = some demoDrained ∧
    (demoDrained.memuse ≤ 4 ∧ demoDrained.mem.length = 4) ∧
    ((readStep demoDrained).memuse ≤ 4 ∧ (readStep demoDrained).mem.length = 4) := by
  have hhead : loopHead (sinkBlockThenAll 1) 3 1 (initState [1, 2, 3, 4, 5, 6] [0, 0, 0, 0] 0)
      = some demoDrained := by decide
  have h := C5_used_within_capacity (sinkBlockThenAll 1) [1, 2, 3, 4, 5, 6] [0, 0, 0, 0] 0 3 1
    demoDrained (sinkBlockThenAll_bounded 1) hhead
  exact ⟨hhead, h.1, h.2.1⟩

/-- C9: at the head and at the end of every pass of the upload loop the chunks
accepted so far followed by the first `memuse` bytes of `mem` are the first `total`
bytes of the source, in order, `total` being the number of bytes read; and when the
sink accepts `n` of the `memuse` bytes offered (`0 ≤ n ≤ memuse`), the compaction
leaves `memuse - n` bytes buffered, byte `i` of `mem` being the former byte
`n + i`. -/
theorem C9_order_preserved {σ : Type} (sink : Sink σ) (file mem : List Byte)
    (handle : σ) (fuel k : Nat) (st : LoopState σ) (r : Step σ)
    (hhead : loopHead sink fuel k (initState file mem handle) = some st)
    (hit : iteration sink fuel st = some r) :
    (st.sent ++ st.pending = file.take st.total ∧ st.total ≤ file.length) ∧
    (r.state.sent ++ r.state.pending = file.take r.state.total ∧
      r.state.total ≤ file.length ∧ r.state.pending.length = r.state.memuse) ∧
    (∀ (n : Int) (s : LoopState σ), 0 ≤ n → n.toNat ≤ s.memuse → s.memuse ≤ s.mem.length →
      (afterWrite n s).state.sent = s.sent ++ s.mem.take n.toNat ∧
      (afterWrite n s).state.memuse = s.memuse - n.toNat ∧
      ∀ i, i < s.memuse - n.toNat → (afterWrite n s).state.mem[i]? = s.mem[n.toNat + i]?) := by
  have hinv0 := inv_initState file mem handle
  have hinv := inv_loopHead sink fuel k _ _ hinv0 hhead
  obtain ⟨hf, -⟩ := loopHead_const sink fuel k _ _ hinv0 hhead
  have hf0 : st.file = file := hf
  have hinvr := inv_iteration sink fuel st r hinv hit
  have hfr : r.state.file = file := (iteration_const sink fuel st r hinv hit).1.trans hf0
  refine ⟨⟨?_, ?_⟩, ⟨?_, ?_, ?_⟩, ?_⟩
  · rw [hinv.total_eq, ← hf0]; exact hinv.data_eq
  · rw [hinv.total_eq, ← hf0]; exact hinv.pos_le
  · rw [hinvr.total_eq, ← hfr]; exact hinvr.data_eq
  · rw [hinvr.total_eq, ← hfr]; exact hinvr.pos_le
  · have := hinvr.memuse_le
    simp only [LoopState.pending, List.length_take]; omega
  · intro n s h0 hle hmem
    refine ⟨?_, afterWrite_memuse n s hle, afterWrite_mem_getElem? n s h0 hle hmem⟩
    have hneg : ¬ n < 0 := by omega
    have hub : ¬ s.memuse < n.toNat := by omega
    simp only [afterWrite, hneg, hub, if_false, LoopState.pending]
    rw [List.take_take, Nat.min_eq_left hle]
    split <;> split <;> simp [Step.state]

/-- Witness of C9: a six-byte source and a four-byte buffer; after a first pass in
which the sink took 3 bytes, the second pass, in which it takes 2. -/
theorem C9_order_preserved_witness :
    loopHead sinkScript 2 1 (initState [1, 2, 3, 4, 5, 6] [0, 0, 0, 0] [3, 2, 1])
      = some demoHead ∧
    iteration sinkScript 2 demoHead = some (Step.next demoNext) ∧
    demoNext.sent ++ demoNext.pending = List.take demoNext.total [1, 2, 3, 4, 5, 6] := by
  have hhead : loopHead sinkScript 2 1 (initState [1, 2, 3, 4, 5, 6] [0, 0, 0, 0] [3, 2, 1])
      = some demoHead := by decide
  have hit : iteration sinkScript 2 demoHead = some (Step.next demoNext) := by decide
  exact ⟨hhead, hit, (C9_order_preserved sinkScript _ _ _ 2 1 _ _ hhead hit).2.1.1⟩

/-- C10: with a sink that answers would-block only finitely many times in a row
and otherwise returns an error or an accepted count within what was offered, the
upload loop terminates for every source; every pass of the loop body returns, and
it either leaves the loop (end of file with an empty buffer, fatal error, or 0
bytes accepted) or strictly decreases the number of bytes not yet accepted, the
bytes left in the source plus `memuse`. -/
theorem C10_upload_loop_terminates {σ : Type} (sink : Sink σ) (file mem : List Byte)
    (handle : σ) (hb : SinkBounded sink) (ha : SinkAnswers sink) :
    (∃ fuel e st, uploadLoop sink fuel (initState file mem handle) = some (e, st) ∧
      (e = .eof ∨ (∃ rc, e = .fatal rc) ∨ e = .stalled)) ∧
    (∀ st : LoopState σ, ∃ fuel r, iteration sink fuel st = some r) ∧
    (∀ (fuel : Nat) (st : LoopState σ) (r : Step σ), iteration sink fuel st = some r →
      (∃ e st1, r = .done e st1 ∧ (e = .eof ∨ (∃ rc, e = .fatal rc) ∨ e = .stalled)) ∨
      (∃ st1, r = .next st1 ∧ st1.outstanding < st.outstanding)) := by
  have hkind : ∀ e : Exit, e ≠ .undefined → (e = .eof ∨ (∃ rc, e = .fatal rc) ∨ e = .stalled) := by
    intro e he
    cases e with
    | eof => exact Or.inl rfl
    | fatal rc => exact Or.inr (Or.inl ⟨rc, rfl⟩)
    | stalled => exact Or.inr (Or.inr rfl)
    | undefined => exact absurd rfl he
  refine ⟨?_, iteration_terminates sink ha, ?_⟩
  · obtain ⟨fuel, e, st, h, he⟩ := uploadLoop_terminates sink hb ha _ (initState file mem handle)
      (Nat.le_refl _)
    exact ⟨fuel, e, st, h, hkind e he⟩
  · intro fuel st r h
    rcases iteration_progress sink hb fuel st r h with ⟨e, st1, rfl, he⟩ | h2
    · exact Or.inl ⟨e, st1, rfl, hkind e he⟩
    · exact Or.inr h2

/-- Witness of C10: the sink that blocks twice and then accepts everything meets
both assumptions; the loop then terminates on a six-byte source. -/
theorem C10_upload_loop_terminates_witness :
    ∃ fuel e st,
      uploadLoop (sinkBlockThenAll 2) fuel (initState [1, 2, 3, 4, 5, 6] [0, 0, 0, 0] 0)
        = some (e, st) ∧
      (e = .eof ∨ (∃ rc, e = .fatal rc) ∨ e = .stalled) :=
  (C10_upload_loop_terminates (sinkBlockThenAll 2) [1, 2, 3, 4, 5, 6] [0, 0, 0, 0] 0
    (sinkBlockThenAll_bounded 2) (sinkBlockThenAll_answers 2)).1

/-- C6: for every `N`, every non-empty source and every buffer of positive size,
with the sink that answers would-block to its first `N` calls and accepts the
whole offered buffer afterwards, the upload loop ends at end of file after
exactly `N` calls of `waitsocket`; its first `N + 1` writes all offer the same
bytes (the first chunk of the source), the first `N` answered would-block and the
next accepted in full; and all source bytes are transferred. -/
theorem C6_blocks_then_completes (N : Nat) (file mem : List Byte)
    (hfile : file ≠ []) (hmem : 0 < mem.length) :
    ∃ fuel st,
      uploadLoop (sinkBlockThenAll N) fuel (initState file mem 0) = some (.eof, st) ∧
      st.waits = N ∧
      st.writes.take (N + 1)
        = List.replicate N (file.take mem.length, LIBSSH2_ERROR_EAGAIN)
          ++ [(file.take mem.length, ((file.take mem.length).length : Int))] ∧
      st.sent = file ∧ st.total = file.length ∧ st.memuse = 0 := by
  have hinv0 : Inv (initState file mem (0 : Nat)) := inv_initState file mem 0
  have hlen : 0 < file.length := List.length_pos.2 hfile
  obtain ⟨st1, hit, h1, h2, h3, h4, -⟩ :=
    blockThenAll_pass N (initState file mem 0) rfl hlen hmem
  have hfread : fread file 0 mem.length = file.take mem.length := by simp [fread]
  simp only [initState, Nat.sub_zero, Nat.zero_add, List.nil_append] at h3 h4
  rw [hfread] at h4
  obtain ⟨hf, hl⟩ := iteration_const _ _ _ _ hinv0 hit
  simp only [Step.state] at hf hl
  have hinv1 : Inv st1 := inv_iteration _ _ _ _ hinv0 hit
  obtain ⟨f2, st2, hrun2, hw2⟩ := blockThenAll_drain N _ st1 hinv1 h1 (by omega)
    (by rw [hl]; exact hmem) (Nat.le_refl _)
  have hrun : uploadLoop (sinkBlockThenAll N) (N + 1 + f2 + 1) (initState file mem 0)
      = some (.eof, st2) := by
    rw [uploadLoop, iteration_mono _ _ (N + 1 + f2) _ _ hit (by simp only [initState]; omega)]
    exact uploadLoop_mono _ f2 _ st1 _ hrun2 (by omega)
  obtain ⟨e1, -, e3, e4⟩ := eof_exit_complete _ file mem 0 _ st2 hmem hrun
  have hpre := uploadLoop_writes _ _ _ _ _ hrun2
  have htake : st2.writes.take (N + 1) = st1.writes := by
    have := List.prefix_iff_eq_take.1 hpre
    rw [this]
    congr 1
    rw [h4]
    simp
  exact ⟨_, st2, hrun, by rw [hw2, h3], by rw [htake, h4], e4, e3, e1⟩

/-- Witness of C6: two would-block answers, a seven-byte source, a four-byte
buffer. -/
theorem C6_blocks_then_completes_witness :
    ∃ fuel st,
      uploadLoop (sinkBlockThenAll 2) fuel (initState [1, 2, 3, 4, 5, 6, 7] [0, 0, 0, 0] 0)
        = some (.eof, st) ∧
      st.waits = 2 ∧
      st.writes.take (2 + 1)
        = List.replicate 2 (List.take 4 [1, 2, 3, 4, 5, 6, 7], LIBSSH2_ERROR_EAGAIN)
          ++ [(List.take 4 [1, 2, 3, 4, 5, 6, 7],
                ((List.take 4 [1, 2, 3, 4, 5, 6, 7] : List Byte).length : Int))] ∧
      st.sent = [1, 2, 3, 4, 5, 6, 7] ∧ st.total = 7 ∧ st.memuse = 0 :=
  C6_blocks_then_completes 2 [1, 2, 3, 4, 5, 6, 7] [0, 0, 0, 0] (by decide) (by decide)

/-- C2: for every source, every sink and every buffer of positive size, a run of
the upload loop that ends at end of file (nothing read, `memuse == 0`) ends with
`total` equal to the length of the source and `memuse = 0`. In the scenario of a
source of 2,500,000 bytes, `sizeof(mem) = 1,024,000` and a sink that takes exactly
500,000 bytes a call without would-block, the loop ends that way after five
writes, with `total = 2,500,000`, `memuse = 0` and every source byte accepted. -/
theorem C2_total_is_source_length {σ : Type} (sink : Sink σ) (file mem : List Byte)
    (handle : σ) (fuel : Nat) (st : LoopState σ)
    (hmem : 0 < mem.length)
    (hrun : uploadLoop sink fuel (initState file mem handle) = some (.eof, st)) :
    (st.total = file.length ∧ st.memuse = 0 ∧ st.sent = file) ∧
    (∀ src buf : List Byte, src.length = 2500000 → buf.length = sizeof_mem →
      ∃ n s, uploadLoop (sinkChunk 500000) n (initState src buf ()) = some (.eof, s) ∧
        s.total = 2500000 ∧ s.memuse = 0 ∧ s.sent = src ∧ s.waits = 0 ∧
        s.writes.map Prod.snd = List.replicate 5 (500000 : Int)) := by
  obtain ⟨h1, -, h3, h4⟩ := eof_exit_complete sink file mem handle fuel st hmem hrun
  refine ⟨⟨h3, h1, h4⟩, ?_⟩
  intro src buf hsrc hbuf
  have hbuf1 : buf.length = 1024000 := hbuf
  obtain ⟨s, hs, hw⟩ := scenario_run src buf hsrc hbuf1
  obtain ⟨e1, -, e3, e4⟩ := eof_exit_complete _ src buf () 6 s (by omega) hs
  have hwaits : s.waits = 0 := by
    rw [uploadLoop_waits _ 6 _ _ s rfl hs, hw]
    decide
  exact ⟨6, s, hs, by rw [e3, hsrc], e1, e4, hwaits, hw⟩

/-- Witness of C2: six bytes through a four-byte buffer with a sink that takes 2
bytes a call, and the scenario on a source of 2,500,000 bytes. -/
theorem C2_total_is_source_length_witness :
    uploadLoop (sinkChunk 2) 5 (initState [1, 2, 3, 4, 5, 6] [0, 0, 0, 0] ())
      = some (Exit.eof,
          { file := [1, 2, 3, 4, 5, 6], pos := 6, mem := [5, 6, 5, 6], memuse := 0,
            total := 6, handle := (), sent := [1, 2, 3, 4, 5, 6], waits := 0,
            writes := [([1, 2, 3, 4], 2), ([3, 4, 5, 6], 2), ([5, 6], 2)] }) ∧
    ∃ n s, uploadLoop (sinkChunk 500000) n
        (initState (List.replicate 2500000 7) (List.replicate 1024000 0) ())
        = some (.eof, s) ∧
      s.total = 2500000 ∧ s.memuse = 0 ∧ s.sent = List.replicate 2500000 7 ∧ s.waits = 0 ∧
      s.writes.map Prod.snd = List.replicate 5 (500000 : Int) := by
  have hrun : uploadLoop (sinkChunk 2) 5 (initState [1, 2, 3, 4, 5, 6] [0, 0, 0, 0] ())
      = some (Exit.eof,
          { file := [1, 2, 3, 4, 5, 6], pos := 6, mem := [5, 6, 5, 6], memuse := 0,
            total := 6, handle := (), sent := [1, 2, 3, 4, 5, 6], waits := 0,
            writes := [([1, 2, 3, 4], 2), ([3, 4, 5, 6], 2), ([5, 6], 2)] }) := by decide
  exact ⟨hrun, (C2_total_is_source_length (sinkChunk 2) _ _ _ _ _ (by decide) hrun).2
    (List.replicate 2500000 7) (List.replicate 1024000 0)
    (List.length_replicate _ _) (List.length_replicate _ _)⟩

/-- C4 fails on the code: with a three-byte file, a sink that fails on the first
write and a sink that accepts all three bytes lead to the same lines on `stderr`
and the same exit status 0: the fatal error is not surfaced. -/
theorem C4_fatal_write_error_is_swallowed (duration : Int) :
    (uploadLoop sinkScript 5 (initState [1, 2, 3] [0, 0, 0, 0] [])).map Prod.fst
      = some (Exit.fatal (-1)) ∧
    (uploadLoop sinkScript 5 (initState [1, 2, 3] [0, 0, 0, 0] [3])).map Prod.fst
      = some Exit.eof ∧
    main (scriptedWorld [1, 2, 3] [] duration) 5 = some (scriptedOutcome 3 duration) ∧
    main (scriptedWorld [1, 2, 3] [3] duration) 5 = some (scriptedOutcome 3 duration) := by
  refine ⟨by decide, by decide, ?_, ?_⟩
  · have h : uploadLoop sinkScript 5 (initState [1, 2, 3] [0, 0, 0, 0] [])
        = some (Exit.fatal (-1),
            { file := [1, 2, 3], pos := 3, mem := [1, 2, 3, 0], memuse := 3, total := 3,
              handle := [], sent := [], waits := 0, writes := [([1, 2, 3], -1)] }) := by
      decide
    simp [main, scriptedWorld, auth_pw, h, shutdown_label, scriptedOutcome]
  · have h : uploadLoop sinkScript 5 (initState [1, 2, 3] [0, 0, 0, 0] [3])
        = some (Exit.eof,
            { file := [1, 2, 3], pos := 3, mem := [1, 2, 3, 0], memuse := 0, total := 3,
              handle := [], sent := [1, 2, 3], waits := 0, writes := [([1, 2, 3], 3)] }) := by
      decide
    simp [main, scriptedWorld, auth_pw, h, shutdown_label, scriptedOutcome]

/-- C8: whenever `main` returns, on the normal path, on each early abort and after
a fatal write error alike, each of the local file, the SFTP file handle, the SSH
session and the socket that was acquired has been released afterwards (`fclose`,
`libssh2_sftp_close`, `libssh2_session_disconnect` and `libssh2_session_free`,
`shutdown` and `LIBSSH2_SOCKET_CLOSE`). -/
theorem C8_resources_released {σ : Type} (w : World σ) (fuel : Nat) (out : Outcome)
    (h : main w fuel = some out) :
    ReleasedAfter .localFile out.calls ∧ ReleasedAfter .sftpHandle out.calls ∧
    ReleasedAfter .session out.calls ∧ ReleasedAfter .socket out.calls := by
  unfold main at h
  simp only [auth_pw] at h
  repeat' split at h
  all_goals first
    | (exfalso; simp at h; done)
    | (simp only [Option.some.injEq] at h
       subst h
       simp [shutdown_label, ReleasedAfter])

/-- Witness of C8: a world in which `connect` fails; the file and the socket,
the two things acquired by then, are released. -/
theorem C8_resources_released_witness :
    main { scriptedWorld [1, 2, 3] [] 2 with connect_rc := -1 } 5
      = some { status := 0, stderr := [.connectFailed, .allDone],
               calls := [.acquire .localFile, .acquire .socket, .release .localFile,
                 .release .socket] } ∧
    ReleasedAfter .localFile
      [.acquire .localFile, .acquire .socket, .release .localFile, .release .socket] ∧
    ReleasedAfter .socket
      [.acquire .localFile, .acquire .socket, .release .localFile, .release .socket] := by
  have hmain : main { scriptedWorld [1, 2, 3] [] 2 with connect_rc := -1 } 5
      = some { status := 0, stderr := [.connectFailed, .allDone],
               calls := [.acquire .localFile, .acquire .socket, .release .localFile,
                 .release .socket] } := by decide
  have h := C8_resources_released _ 5 _ hmain
  exact ⟨hmain, h.1, h.2.2.2⟩

end SftpWriteSliding
